import Mathlib

/-!
# CodeValdSharedLib: heartbeat registrar and graceful-shutdown helper

A shallow embedding of `registrar/registrar.go`, `serverutil/serverutil.go` and
`arangoutil/arangoutil.go`.

Sequential code is embedded as functions; calls into libraries (gRPC, the
ArangoDB driver) are parameters, and `strconv.Atoi` is modelled after the Go
standard library.  The two functions that block on
channels (`registrar.Run`, `serverutil.RunWithGracefulShutdown`) are embedded
as labelled transition systems: a state holds the program counter of the
function together with the part of the Go runtime it observes (is the context
cancelled, does a channel hold a value), and a schedule is a list of actions,
each action being either one step of the function or one event of its
environment (context cancellation, a ticker period elapsing, an RPC returning,
a spawned goroutine making progress).  A `select` with several ready cases may
take any of them, as the Go language specifies.

The slices that `registrar.New` receives stay shared with its caller; `Run` is
therefore also embedded on a heap that the caller can write (`stepMem`), each
announce reading the slices as they are at that step.
-/

set_option autoImplicit false
set_option linter.dupNamespace false

/-! ## Go values shared by the packages -/

/-- A Go slice: `none` is the nil slice, `some xs` a non-nil slice. -/
abbrev Slice (α : Type) := Option (List α)

/-- A Go pointer: `none` is nil. -/
abbrev Ptr (α : Type) := Option α

/-- A non-nil Go `error` value, identified by its message. -/
abbrev GoError := String

namespace time

/-- Go `time.Duration`: a signed count of nanoseconds. -/
abbrev Duration := Int

end time

/-! ## Package registrar -/

namespace registrar

/-- Modelled from the spec: `crossv1.RouteDeclaration` is generated code that is
not part of the sources; section 6 of the specification lists its content: HTTP
verb, URL pattern, optional capability label, optional downstream method
identifier, and optional path-parameter-to-field bindings. -/
structure RouteDeclaration where
  Method : String
  Pattern : String
  Capability : String
  GrpcMethod : String
  PathBindings : List (String × String)
  deriving DecidableEq, Repr

/-- Modelled from the spec: `crossv1.RegisterRequest` is generated code that is
not part of the sources; its fields are the six that `ping` fills in
(registrar.go lines 131-138), which are the ones section 6 of the
specification lists for the announce call. -/
structure RegisterRequest where
  ServiceName : String
  Addr : String
  AgencyId : String
  Produces : Slice String
  Consumes : Slice String
  Routes : Slice (Ptr RouteDeclaration)
  deriving DecidableEq, Repr

/-- A `*grpc.ClientConn` handle, identified by the target it was created for. -/
structure ClientConn where
  target : String
  deriving DecidableEq, Repr

/-- The value of `crossv1.NewOrchestratorServiceClient(conn)`: a stub bound to
the connection it was given. -/
structure OrchestratorServiceClient where
  cc : Ptr ClientConn
  deriving DecidableEq, Repr

/-- The struct `registrar` (registrar.go lines 33-45). -/
structure registrar where
  crossAddr : String
  listenAddr : String
  agencyID : String
  serviceName : String
  produces : Slice String
  consumes : Slice String
  routes : Slice (Ptr RouteDeclaration)
  pingInterval : time.Duration
  pingTimeout : time.Duration
  conn : Ptr ClientConn
  client : OrchestratorServiceClient
  deriving DecidableEq, Repr

/-- The function `New` (registrar.go lines 63-87).  `NewClient` stands for
`grpc.NewClient(_, grpc.WithTransportCredentials(insecure.NewCredentials()))`,
a library call that returns a connection and an error.  The result is the Go
pair `(Registrar, error)`.  The slice arguments are given by what they hold
when `New` is called; `New` stores the caller's slice headers uncopied, and
`view`, `MemState` and `stepMem` below follow what the shared arrays hold
later. -/
def New (NewClient : String → Ptr ClientConn × Option GoError)
    (crossAddr listenAddr agencyID serviceName : String)
    (produces consumes : Slice String) (routes : Slice (Ptr RouteDeclaration))
    (pingInterval pingTimeout : time.Duration) : Ptr registrar × Option GoError :=
  match NewClient crossAddr with
  | (_, some err) => (none, some err)
  | (conn, none) =>
    (some
      { crossAddr := crossAddr
        listenAddr := listenAddr
        agencyID := agencyID
        serviceName := serviceName
        produces := produces
        consumes := consumes
        routes := routes
        pingInterval := pingInterval
        pingTimeout := pingTimeout
        conn := conn
        client := { cc := conn } },
     none)

/-- The externally visible effects of the registrar, in program order. -/
inductive Effect
  /-- Line 93: the "starting heartbeat" log line. -/
  | logStarting (serviceName crossAddr : String) (interval timeout : time.Duration)
  /-- Line 131: a Register RPC is issued on `client`, bounded by `timeout`. -/
  | register (client : OrchestratorServiceClient) (timeout : time.Duration)
      (req : RegisterRequest)
  /-- Line 140: the Register RPC returned `err`, which is logged. -/
  | logRegisterFailed (serviceName crossAddr : String) (err : GoError)
  /-- Line 143: the Register RPC returned without error. -/
  | logRegistered (serviceName crossAddr : String)
  /-- Line 101: `time.NewTicker(d)`. -/
  | newTicker (d : time.Duration)
  /-- Line 102: the deferred `ticker.Stop()`. -/
  | tickerStop
  /-- Line 107: the "stopping heartbeat" log line. -/
  | logStopping (serviceName : String)
  /-- Line 119: `conn.Close()` is invoked on the connection. -/
  | connClose (cc : ClientConn)
  /-- Line 120: `conn.Close()` returned `err`, which is logged. -/
  | logCloseFailed (serviceName : String) (err : GoError)
  deriving DecidableEq, Repr

/-- The request literal that `ping` builds (registrar.go lines 131-138). -/
def pingRequest (r : registrar) : RegisterRequest :=
  { ServiceName := r.serviceName
    Addr := r.listenAddr
    AgencyId := r.agencyID
    Produces := r.produces
    Consumes := r.consumes
    Routes := r.routes }

/-- First half of `ping` (lines 128-138): derive the call context with
`pingTimeout` and issue the Register RPC. -/
def pingCall (r : registrar) : Effect :=
  .register r.client r.pingTimeout (pingRequest r)

/-- Second half of `ping` (lines 139-143): the RPC has returned `err`; the outcome
is logged and `ping` returns nothing to its caller. -/
def pingReturn (r : registrar) (err : Option GoError) : Effect :=
  match err with
  | some e => .logRegisterFailed r.serviceName r.crossAddr e
  | none => .logRegistered r.serviceName r.crossAddr

/-- The method `ping` (registrar.go lines 127-144) as one call, given what the
Register RPC returns. -/
def ping (r : registrar) (err : Option GoError) : List Effect :=
  [pingCall r, pingReturn r err]

/-- Where the goroutine executing `Run` stands. -/
inductive Pc
  /-- `Run` has not been entered yet. -/
  | entry
  /-- Inside `r.ping(ctx)` of line 95, the RPC is in flight. -/
  | firstPing
  /-- At the `select` of line 105. -/
  | waiting
  /-- Inside `r.ping(ctx)` of line 110, the RPC is in flight. -/
  | tickPing
  /-- `Run` has returned. -/
  | returned
  deriving DecidableEq, Repr

/-- The state of one call of `Run`. -/
structure RunState where
  /-- The receiver. -/
  r : registrar
  pc : Pc
  /-- Whether `ctx.Done()` is closed. -/
  ctxDone : Bool
  /-- The ticker: `none` before `time.NewTicker`, `some b` afterwards, where `b`
  tells whether the one-slot channel `ticker.C` holds a tick. -/
  ticker : Option Bool
  /-- The effects so far, oldest first. -/
  out : List Effect
  deriving DecidableEq, Repr

/-- One step of `Run` or of its environment. -/
inductive Action
  /-- Environment: the context is cancelled. -/
  | cancel
  /-- Environment: one ticker period elapses; the runtime sends on `ticker.C`
  without blocking, so the tick is dropped when one is already pending. -/
  | tick
  /-- Program: `Run` is entered and runs up to the Register RPC of the first ping
  (lines 93-95, 128-138). -/
  | call
  /-- The Register RPC in flight returns `err`; `ping` logs and returns, and `Run`
  goes on to its next wait point or return. -/
  | rpcReturn (err : Option GoError)
  /-- Program: the `select` takes `case <-ctx.Done()` (lines 106-108). -/
  | recvDone
  /-- Program: the `select` takes `case <-ticker.C` (lines 109-110). -/
  | recvTick
  deriving DecidableEq, Repr

/-- The transition function of `Run` (registrar.go lines 92-113); `none` when the
action is not enabled in the state. -/
def step (s : RunState) : Action → Option RunState
  | .cancel => some { s with ctxDone := true }
  | .tick =>
    match s.pc, s.ticker with
    | .returned, _ => none
    | _, some _ => some { s with ticker := some true }
    | _, none => none
  | .call =>
    match s.pc with
    | .entry =>
      some { s with
        pc := .firstPing
        out := s.out ++
          [.logStarting s.r.serviceName s.r.crossAddr s.r.pingInterval s.r.pingTimeout,
           pingCall s.r] }
    | _ => none
  | .rpcReturn err =>
    match s.pc with
    | .firstPing =>
      if s.r.pingInterval ≤ 0 then
        some { s with pc := .returned, out := s.out ++ [pingReturn s.r err] }
      else
        some { s with
          pc := .waiting
          ticker := some false
          out := s.out ++ [pingReturn s.r err, .newTicker s.r.pingInterval] }
    | .tickPing => some { s with pc := .waiting, out := s.out ++ [pingReturn s.r err] }
    | _ => none
  | .recvDone =>
    match s.pc, s.ctxDone with
    | .waiting, true =>
      some { s with
        pc := .returned
        out := s.out ++ [.logStopping s.r.serviceName, .tickerStop] }
    | _, _ => none
  | .recvTick =>
    match s.pc, s.ticker with
    | .waiting, some true =>
      some { s with pc := .tickPing, ticker := some false, out := s.out ++ [pingCall s.r] }
    | _, _ => none

/-- Run a schedule from a state; `none` when some action is not enabled. -/
def exec (s : RunState) : List Action → Option RunState
  | [] => some s
  | a :: as => (step s a).bind fun s' => exec s' as

/-- The state in which `Run` is about to be called on `r`. -/
def init (r : registrar) : RunState :=
  { r := r, pc := .entry, ctxDone := false, ticker := none, out := [] }

/-- The method `Run` (registrar.go lines 92-113) under a schedule. -/
def Run (r : registrar) (sched : List Action) : Option RunState :=
  exec (init r) sched

/-- Whether an effect is an announce call (a Register RPC being issued). -/
def Effect.isRegister : Effect → Bool
  | .register _ _ _ => true
  | _ => false

/-- Whether an effect is the end of an announce call (`ping` logging its outcome). -/
def Effect.isPingReturn : Effect → Bool
  | .logRegisterFailed _ _ _ => true
  | .logRegistered _ _ => true
  | _ => false

/-- The number of announce calls issued. -/
def pings (out : List Effect) : Nat :=
  (out.filter Effect.isRegister).length

/-- The number of ticker periods that elapsed before the context was cancelled. -/
def intervalsBeforeCancel (sched : List Action) : Nat :=
  (sched.takeWhile fun a => a ≠ .cancel).count .tick

/-- The number of ticks the `select` received from `ticker.C`. -/
def ticksReceived (sched : List Action) : Nat :=
  sched.count .recvTick

/-- Scan the effects for overlapping announce calls: `inFlight` tells whether a
Register RPC has been issued and has not returned yet. -/
def sequentialFrom : Bool → List Effect → Bool
  | _, [] => true
  | inFlight, e :: es =>
    if e.isRegister then !inFlight && sequentialFrom true es
    else if e.isPingReturn then inFlight && sequentialFrom false es
    else sequentialFrom inFlight es

/-- Whether the announce calls are strictly sequential: every Register RPC is
issued only after the previous one has returned. -/
def sequential (out : List Effect) : Bool :=
  sequentialFrom false out

/-- Forget what a Register RPC returned. -/
def Action.eraseErr : Action → Action
  | .rpcReturn _ => .rpcReturn none
  | a => a

/-- The part of the state that decides what `Run` does next, with the number of
announce calls issued so far. -/
def control (s : RunState) : Pc × Bool × Option Bool × Nat :=
  (s.pc, s.ctxDone, s.ticker, pings s.out)

/-- A schedule on which a slow announce spans two ticker periods: the second
tick finds `ticker.C` full and is dropped. -/
def slowPing : List Action :=
  [.call, .rpcReturn none, .tick, .recvTick, .tick, .tick, .rpcReturn none, .recvTick,
   .rpcReturn none, .cancel, .recvDone]

/-- A schedule on which the context is cancelled during an announce while a tick is
already pending; the announce then fails with the context error. -/
def cancelDuringPing : List Action :=
  [.call, .rpcReturn none, .tick, .recvTick, .tick, .cancel,
   .rpcReturn (some "context canceled")]

/-- A Go run-time panic. -/
inductive Panic
  /-- A method was called through a nil pointer. -/
  | nilDereference
  deriving DecidableEq, Repr

/-- Reaching a `*grpc.ClientConn` through a pointer: a nil pointer panics. -/
def deref (p : Ptr ClientConn) : Except Panic ClientConn :=
  match p with
  | some cc => .ok cc
  | none => .error .nilDereference

/-- The registrar together with the record of what `Close` has done so far. -/
structure CloseState where
  /-- The receiver. -/
  r : registrar
  /-- How many times `conn.Close()` has been invoked. -/
  closeCalls : Nat
  /-- The effects so far, oldest first. -/
  out : List Effect
  deriving DecidableEq, Repr

/-- The method `Close` (registrar.go lines 117-123).  `connClose k` is what the
library call `conn.Close()` returns on its `k`-th invocation (counted from 0) on
this connection: nil or an error.  `Close` itself returns nothing. -/
def Close (connClose : Nat → Option GoError) (s : CloseState) : Except Panic CloseState :=
  if s.r.conn ≠ none then
    match deref s.r.conn with
    | .error p => .error p
    | .ok cc =>
      match connClose s.closeCalls with
      | some err =>
        .ok { s with
          closeCalls := s.closeCalls + 1
          out := s.out ++ [.connClose cc, .logCloseFailed s.r.serviceName err] }
      | none => .ok { s with closeCalls := s.closeCalls + 1, out := s.out ++ [.connClose cc] }
  else
    .ok s

/-- Calling `Close` `n` times in a row. -/
def CloseN (connClose : Nat → Option GoError) : Nat → CloseState → Except Panic CloseState
  | 0, s => .ok s
  | n + 1, s =>
    match Close connClose s with
    | .error p => .error p
    | .ok s' => CloseN connClose n s'

/-- A registrar on which `Close` has not been called yet. -/
def fresh (r : registrar) : CloseState :=
  { r := r, closeCalls := 0, out := [] }

/-- Whether the connection has been released: `conn.Close()` ran at least once. -/
def CloseState.released (s : CloseState) : Bool :=
  decide (0 < s.closeCalls)

/-- The number of log lines written by `Close`. -/
def closeLogs (out : List Effect) : Nat :=
  (out.filter fun e => match e with
    | .logCloseFailed _ _ => true
    | _ => false).length

/-- What `grpc.ClientConn.Close` returns in practice: nil on the first call, the
error `ErrClientConnClosing` on every later call. -/
def grpcClose : Nat → Option GoError
  | 0 => none
  | _ + 1 => some "grpc: the client connection is closing"

/-- The number of calls, among the `n` invocations of `conn.Close()` numbered from
`start`, that returned an error. -/
def errorsReturned (connClose : Nat → Option GoError) (start : Nat) : Nat → Nat
  | 0 => 0
  | n + 1 =>
    (if (connClose start).isSome then 1 else 0) + errorsReturned connClose (start + 1) n

/-- A registrar as `New` builds it for a reachable address: one-second
heartbeat, five-second call timeout. -/
def sample : registrar :=
  { crossAddr := "cross:50051"
    listenAddr := ":9001"
    agencyID := ""
    serviceName := "svc"
    produces := some ["work.created"]
    consumes := none
    routes := none
    pingInterval := 1000000000
    pingTimeout := 5000000000
    conn := some { target := "cross:50051" }
    client := { cc := some { target := "cross:50051" } } }

/-- The registrar `sample` in one-shot mode (`pingInterval` zero). -/
def sampleOneShot : registrar :=
  { sample with pingInterval := 0 }

end registrar

/-! ## Package serverutil -/

namespace serverutil

/-- The externally visible effects of `RunWithGracefulShutdown`, in order. -/
inductive Effect
  /-- Line 42: the spawned goroutine calls `srv.Serve(lis)`. -/
  | serve (lis : String)
  /-- Line 43: `srv.Serve` returned `err`, which is logged. -/
  | logServeStopped (err : GoError)
  /-- Line 58: `time.After(drainTimeout)` arms the drain timer. -/
  | after (drainTimeout : time.Duration)
  /-- Line 51: the spawned goroutine calls `srv.GracefulStop()`. -/
  | gracefulStop
  /-- Line 52: `close(done)`. -/
  | closeDone
  /-- Line 57: the "stopped cleanly" log line. -/
  | logStoppedCleanly
  /-- Line 59: the "drain timeout exceeded — forcing stop" log line. -/
  | logDrainTimeout
  /-- Line 60: `srv.Stop()`. -/
  | stop
  deriving DecidableEq, Repr

/-- Where the goroutine executing `RunWithGracefulShutdown` stands. -/
inductive Pc
  /-- The function has not been entered yet. -/
  | entry
  /-- Blocked at `<-ctx.Done()` (line 47). -/
  | awaitCtx
  /-- At the `select` of line 55. -/
  | racing
  /-- The function has returned. -/
  | returned
  deriving DecidableEq, Repr

/-- The progress of a spawned goroutine. -/
inductive Task
  /-- The `go` statement has not run. -/
  | idle
  /-- Spawned, its body has not started. -/
  | spawned
  /-- Inside its blocking call (`srv.Serve`, `srv.GracefulStop`). -/
  | running
  /-- Its body has finished. -/
  | finished
  deriving DecidableEq, Repr

/-- The state of one call of `RunWithGracefulShutdown`. -/
structure State where
  lis : String
  drainTimeout : time.Duration
  pc : Pc
  /-- Whether `ctx.Done()` is closed. -/
  ctxDone : Bool
  /-- The goroutine of lines 41-45. -/
  server : Task
  /-- The goroutine of lines 50-53; `finished` means `done` is closed. -/
  drain : Task
  /-- The drain timer: `none` before `time.After`, `some b` afterwards, where `b`
  tells whether it has fired (its channel holds a value). -/
  timer : Option Bool
  /-- The effects so far, oldest first. -/
  out : List Effect
  deriving DecidableEq, Repr

/-- One step of `RunWithGracefulShutdown`, of a goroutine it spawned, or of its
environment. -/
inductive Action
  /-- Environment: the context is cancelled. -/
  | cancel
  /-- Program: the function is entered, spawns the serving goroutine and blocks
  on `<-ctx.Done()` (lines 41-47). -/
  | call
  /-- Serving goroutine: it starts `srv.Serve(lis)`. -/
  | serveBegin
  /-- Serving goroutine: `srv.Serve` returns `err`; a non-nil `err` is logged. -/
  | serveReturn (err : Option GoError)
  /-- Program: `<-ctx.Done()` unblocks; `done` is made, the draining goroutine is
  spawned, and the `select` is entered, which evaluates `time.After(drainTimeout)`
  (lines 47-58). -/
  | recvCtx
  /-- Draining goroutine: it calls `srv.GracefulStop()`. -/
  | drainBegin
  /-- Draining goroutine: `srv.GracefulStop()` returns and `done` is closed. -/
  | drainEnd
  /-- Environment: the drain timer fires. -/
  | timerFire
  /-- Program: the `select` takes `case <-done` (lines 56-57). -/
  | recvDone
  /-- Program: the `select` takes `case <-time.After(drainTimeout)` (lines 58-60). -/
  | recvTimer
  deriving DecidableEq, Repr

/-- The transition function of `RunWithGracefulShutdown` (serverutil.go lines
40-62); `none` when the action is not enabled in the state. -/
def step (s : State) : Action → Option State
  | .cancel => some { s with ctxDone := true }
  | .call =>
    match s.pc with
    | .entry => some { s with pc := .awaitCtx, server := .spawned }
    | _ => none
  | .serveBegin =>
    match s.server with
    | .spawned => some { s with server := .running, out := s.out ++ [.serve s.lis] }
    | _ => none
  | .serveReturn err =>
    match s.server with
    | .running =>
      match err with
      | some e => some { s with server := .finished, out := s.out ++ [.logServeStopped e] }
      | none => some { s with server := .finished }
    | _ => none
  | .recvCtx =>
    match s.pc, s.ctxDone with
    | .awaitCtx, true =>
      some { s with
        pc := .racing
        drain := .spawned
        timer := some false
        out := s.out ++ [.after s.drainTimeout] }
    | _, _ => none
  | .drainBegin =>
    match s.drain with
    | .spawned => some { s with drain := .running, out := s.out ++ [.gracefulStop] }
    | _ => none
  | .drainEnd =>
    match s.drain with
    | .running => some { s with drain := .finished, out := s.out ++ [.closeDone] }
    | _ => none
  | .timerFire =>
    match s.timer with
    | some false => some { s with timer := some true }
    | _ => none
  | .recvDone =>
    match s.pc, s.drain with
    | .racing, .finished =>
      some { s with pc := .returned, out := s.out ++ [.logStoppedCleanly] }
    | _, _ => none
  | .recvTimer =>
    match s.pc, s.timer with
    | .racing, some true =>
      some { s with pc := .returned, out := s.out ++ [.logDrainTimeout, .stop] }
    | _, _ => none

/-- Run a schedule from a state; `none` when some action is not enabled. -/
def exec (s : State) : List Action → Option State
  | [] => some s
  | a :: as => (step s a).bind fun s' => exec s' as

/-- The state in which `RunWithGracefulShutdown(ctx, srv, lis, drainTimeout)` is
about to be called. -/
def init (lis : String) (drainTimeout : time.Duration) : State :=
  { lis := lis, drainTimeout := drainTimeout, pc := .entry, ctxDone := false,
    server := .idle, drain := .idle, timer := none, out := [] }

/-- The function `RunWithGracefulShutdown` (serverutil.go lines 40-62) under a
schedule. -/
def RunWithGracefulShutdown (lis : String) (drainTimeout : time.Duration)
    (sched : List Action) : Option State :=
  exec (init lis drainTimeout) sched

/-- The number of invocations of `srv.GracefulStop()`. -/
def gracefulStops (out : List Effect) : Nat :=
  out.count .gracefulStop

/-- The number of invocations of the forced `srv.Stop()`. -/
def stops (out : List Effect) : Nat :=
  out.count .stop

/-- Whether, in the schedule, the graceful stop completes (`done` is closed) and
the drain timer has not fired before that. -/
def gracefulFirst : List Action → Bool
  | [] => false
  | .drainEnd :: _ => true
  | .timerFire :: _ => false
  | _ :: as => gracefulFirst as

/-- A schedule on which the graceful stop completes, then the drain timer fires,
and the `select`, reached with both channels ready, takes the timer case. -/
def gracefulThenTimer : List Action :=
  [.call, .serveBegin, .cancel, .recvCtx, .drainBegin, .drainEnd, .serveReturn none,
   .timerFire, .recvTimer]

/-- A schedule on which the drain timer fires and the `select` takes the timer case
before the draining goroutine has started to run. -/
def timerBeforeDrainStarts : List Action :=
  [.call, .serveBegin, .cancel, .recvCtx, .timerFire, .recvTimer]

/-- A schedule on which `srv.Serve` fails at once and the context is not cancelled. -/
def serveFailsEarly : List Action :=
  [.call, .serveBegin, .serveReturn (some "listener closed")]

end serverutil

/-! ## Go standard library: strconv, os -/

namespace strconv

/-- The `Err` field of a `*strconv.NumError`. -/
inductive NumError
  /-- The sentinel `strconv.ErrSyntax`. -/
  | ErrSyntax
  /-- The sentinel `strconv.ErrRange`. -/
  | ErrRange
  deriving DecidableEq, Repr

/-- The value of a decimal digit, `none` for any other character. -/
def digit (c : Char) : Option Nat :=
  if '0' ≤ c ∧ c ≤ '9' then some (c.toNat - 48) else none

/-- The digit loop of Go's `strconv.ParseUint(s, 10, 64)`: characters are read
left to right; a character that is not a decimal digit is a syntax error, and a
value that leaves the range of `uint64` is a range error with the value
`1<<64 - 1`. -/
def parseUintLoop (n : Nat) : List Char → Nat × Option NumError
  | [] => (n, none)
  | c :: cs =>
    match digit c with
    | none => (0, some .ErrSyntax)
    | some d =>
      if 2 ^ 64 ≤ n * 10 + d then (2 ^ 64 - 1, some .ErrRange)
      else parseUintLoop (n * 10 + d) cs

/-- Go's `strconv.ParseUint(s, 10, 64)`: the empty string is a syntax error. -/
def ParseUint (s : List Char) : Nat × Option NumError :=
  match s with
  | [] => (0, some .ErrSyntax)
  | c :: cs => parseUintLoop 0 (c :: cs)

/-- Go's `strconv.ParseInt(s, 10, 64)`: an optional sign `+` or `-`, then
`ParseUint`; a syntax error gives 0, a magnitude outside `int64` gives the
nearest bound with a range error. -/
def ParseInt (s : List Char) : Int × Option NumError :=
  match s with
  | [] => (0, some .ErrSyntax)
  | c :: cs =>
    let neg : Bool := decide (c = '-')
    let ds : List Char := if c = '+' ∨ c = '-' then cs else c :: cs
    match ParseUint ds with
    | (_, some .ErrSyntax) => (0, some .ErrSyntax)
    | (un, _) =>
      if !neg && decide (2 ^ 63 ≤ un) then (2 ^ 63 - 1, some .ErrRange)
      else if neg && decide (2 ^ 63 < un) then (-(2 ^ 63), some .ErrRange)
      else if neg then (-(un : Int), none)
      else ((un : Int), none)

/-- Go's `strconv.Atoi(s)` with a 64-bit `int`: the result of
`ParseInt(s, 10, 0)`, which its fast path for short strings agrees with. -/
def Atoi (s : String) : Int × Option NumError :=
  ParseInt s.toList

/-- Whether a string is an optional sign followed by one or more decimal digits. -/
def isDecimalInteger (s : String) : Bool :=
  match s.toList with
  | [] => false
  | c :: cs =>
    let ds : List Char := if c = '+' ∨ c = '-' then cs else c :: cs
    !ds.isEmpty && ds.all fun d => (digit d).isSome

end strconv

namespace os

/-- Go's `os.Getenv(key)` on the environment `env`: the value of the variable, or
the empty string when it is not set. -/
def Getenv (env : String → Option String) (key : String) : String :=
  (env key).getD ""

end os

namespace time

/-- The constant `time.Second`, in nanoseconds. -/
def Second : Duration := 1000000000

/-- Reduction of an integer to the range of `int64`, as Go's wrapping arithmetic
does. -/
def wrapInt64 (x : Int) : Int :=
  (x + 2 ^ 63) % 2 ^ 64 - 2 ^ 63

end time

/-! ## Package serverutil: environment parsing and log lines -/

namespace serverutil

/-- The log line of `ParseDurationSeconds` (serverutil.go line 83). -/
structure ParseLog where
  key : String
  v : String
  dflt : time.Duration
  deriving DecidableEq, Repr

/-- The function `ParseDurationSeconds` (serverutil.go lines 76-87) on the
environment `env`; `dflt` is the parameter `def`.  The result is the returned
duration with the log lines written. -/
def ParseDurationSeconds (env : String → Option String) (key : String)
    (dflt : time.Duration) : time.Duration × List ParseLog :=
  let v := os.Getenv env key
  if v = "" then (dflt, [])
  else
    match strconv.Atoi v with
    | (secs, err) =>
      if err ≠ none ∨ secs ≤ 0 then (dflt, [{ key := key, v := v, dflt := dflt }])
      else (time.wrapInt64 (secs * time.Second), [])

/-- An environment in which only the variable `key` is set, to `v`. -/
def envWith (key v : String) : String → Option String :=
  fun k => if k = key then some v else none

/-- The text that `log.Println` / `log.Printf` is given for a log effect of
`RunWithGracefulShutdown` (serverutil.go lines 43, 57, 59); `none` for an effect
that is not a log line. -/
def Effect.logText : Effect → Option String
  | .logServeStopped err => some ("serverutil: gRPC server stopped: " ++ err)
  | .logStoppedCleanly => some "serverutil: gRPC server stopped cleanly"
  | .logDrainTimeout => some "serverutil: drain timeout exceeded — forcing stop"
  | _ => none

/-- Whether an effect is one of the two outcome lines of the shutdown. -/
def Effect.isOutcomeLine : Effect → Bool
  | .logStoppedCleanly => true
  | .logDrainTimeout => true
  | _ => false

/-- The outcome lines logged, oldest first. -/
def outcomeLines (out : List Effect) : List Effect :=
  out.filter Effect.isOutcomeLine

/-- The text the specification gives for the clean outcome (section 4.3). -/
def specStoppedCleanly : String := "stopped cleanly"

/-- The text the specification gives for the forced outcome (section 4.3). -/
def specDrainTimeout : String := "drain timeout — forcing stop"

/-- Whether the characters `t` open the characters `l`. -/
def startsWith : List Char → List Char → Bool
  | _, [] => true
  | [], _ :: _ => false
  | c :: cs, t :: ts => c == t && startsWith cs ts

/-- Whether the characters `t` occur consecutively somewhere in `l`. -/
def occursIn (t : List Char) : List Char → Bool
  | [] => t.isEmpty
  | c :: cs => startsWith (c :: cs) t || occursIn t cs

/-- Whether a logged text contains the given text. -/
def containsText (line text : String) : Bool :=
  occursIn text.toList line.toList

end serverutil

/-! ## Package arangoutil -/

namespace driver

end driver

namespace arangoutil

end arangoutil

/-! ## Theorems: package registrar -/

namespace registrar

theorem exec_append (s : RunState) (xs ys : List Action) :
    exec s (xs ++ ys) = (exec s xs).bind fun s' => exec s' ys := by
  induction xs generalizing s with
  | nil => simp [exec]
  | cons a as ih =>
    simp only [List.cons_append, exec]
    cases step s a with
    | none => simp
    | some s' => simpa using ih s'

theorem exec_snoc (s t : RunState) (xs : List Action) (a : Action)
    (h : exec s (xs ++ [a]) = some t) : ∃ m, exec s xs = some m ∧ step m a = some t := by
  rw [exec_append] at h
  cases hm : exec s xs with
  | none => simp [hm] at h
  | some m =>
    refine ⟨m, rfl, ?_⟩
    simp only [hm, Option.some_bind, exec] at h
    cases hs : step m a with
    | none => simp [hs] at h
    | some t' => simpa [hs] using h

/-- Induction over the schedules that are enabled from a state. -/
theorem exec_induction (P : List Action → RunState → Prop) (s₀ : RunState)
    (h₀ : P [] s₀)
    (hstep : ∀ pre s a s', exec s₀ pre = some s → P pre s → step s a = some s' →
      P (pre ++ [a]) s') :
    ∀ sched s, exec s₀ sched = some s → P sched s := by
  intro sched
  induction sched using List.reverseRecOn with
  | nil =>
    intro s hs
    simp only [exec, Option.some.injEq] at hs
    exact hs ▸ h₀
  | append_singleton xs a ih =>
    intro s hs
    obtain ⟨m, hm, hma⟩ := exec_snoc s₀ s xs a hs
    exact hstep xs m a s hm (ih m hm) hma

/-- Every enabled step is one of the eight transitions of `Run`. -/
theorem step_inv (s s' : RunState) (a : Action) (h : step s a = some s') :
    (a = .cancel ∧ s' = { s with ctxDone := true }) ∨
    (a = .tick ∧ s.pc ≠ .returned ∧ s.ticker ≠ none ∧ s' = { s with ticker := some true }) ∨
    (a = .call ∧ s.pc = .entry ∧
      s' = { s with
        pc := .firstPing
        out := s.out ++
          [.logStarting s.r.serviceName s.r.crossAddr s.r.pingInterval s.r.pingTimeout,
           pingCall s.r] }) ∨
    (∃ err, a = .rpcReturn err ∧ s.pc = .firstPing ∧ s.r.pingInterval ≤ 0 ∧
      s' = { s with pc := .returned, out := s.out ++ [pingReturn s.r err] }) ∨
    (∃ err, a = .rpcReturn err ∧ s.pc = .firstPing ∧ 0 < s.r.pingInterval ∧
      s' = { s with
        pc := .waiting
        ticker := some false
        out := s.out ++ [pingReturn s.r err, .newTicker s.r.pingInterval] }) ∨
    (∃ err, a = .rpcReturn err ∧ s.pc = .tickPing ∧
      s' = { s with pc := .waiting, out := s.out ++ [pingReturn s.r err] }) ∨
    (a = .recvDone ∧ s.pc = .waiting ∧ s.ctxDone = true ∧
      s' = { s with
        pc := .returned
        out := s.out ++ [.logStopping s.r.serviceName, .tickerStop] }) ∨
    (a = .recvTick ∧ s.pc = .waiting ∧ s.ticker = some true ∧
      s' = { s with pc := .tickPing, ticker := some false, out := s.out ++ [pingCall s.r] }) := by
  cases a with
  | cancel =>
    simp only [step, Option.some.injEq] at h
    exact Or.inl ⟨rfl, h.symm⟩
  | tick =>
    simp only [step] at h
    split at h
    · simp at h
    · next htk hpc =>
      simp only [Option.some.injEq] at h
      exact Or.inr (Or.inl ⟨rfl, fun hp => hpc hp, by simp [htk], h.symm⟩)
    · simp at h
  | call =>
    simp only [step] at h
    split at h
    · next hpc =>
      simp only [Option.some.injEq] at h
      exact Or.inr (Or.inr (Or.inl ⟨rfl, hpc, h.symm⟩))
    · simp at h
  | rpcReturn err =>
    simp only [step] at h
    split at h
    · next hpc =>
      split at h
      · next hle =>
        simp only [Option.some.injEq] at h
        exact Or.inr (Or.inr (Or.inr (Or.inl ⟨err, rfl, hpc, hle, h.symm⟩)))
      · next hgt =>
        simp only [Option.some.injEq] at h
        exact Or.inr (Or.inr (Or.inr (Or.inr (Or.inl
          ⟨err, rfl, hpc, not_le.mp hgt, h.symm⟩))))
    · next hpc =>
      simp only [Option.some.injEq] at h
      exact Or.inr (Or.inr (Or.inr (Or.inr (Or.inr (Or.inl ⟨err, rfl, hpc, h.symm⟩)))))
    · simp at h
  | recvDone =>
    simp only [step] at h
    split at h
    · next hpc hd =>
      simp only [Option.some.injEq] at h
      exact Or.inr (Or.inr (Or.inr (Or.inr (Or.inr (Or.inr (Or.inl
        ⟨rfl, hpc, hd, h.symm⟩))))))
    · simp at h
  | recvTick =>
    simp only [step] at h
    split at h
    · next hpc ht =>
      simp only [Option.some.injEq] at h
      exact Or.inr (Or.inr (Or.inr (Or.inr (Or.inr (Or.inr (Or.inr
        ⟨rfl, hpc, ht, h.symm⟩))))))
    · simp at h

/-- The receiver of `Run` is never modified. -/
theorem step_r (s s' : RunState) (a : Action) (h : step s a = some s') : s'.r = s.r := by
  rcases step_inv s s' a h with ⟨-, rfl⟩ | ⟨-, -, -, rfl⟩ | ⟨-, -, rfl⟩ | ⟨_, -, -, -, rfl⟩ |
    ⟨_, -, -, -, rfl⟩ | ⟨_, -, -, rfl⟩ | ⟨-, -, -, rfl⟩ | ⟨-, -, -, rfl⟩ <;> rfl

theorem Run_r (r : registrar) (sched : List Action) (s : RunState)
    (h : Run r sched = some s) : s.r = r :=
  exec_induction (fun _ s => s.r = r) (init r) rfl
    (fun _ s a s' _ hP hs => (step_r s s' a hs).trans hP) sched s h

theorem pings_append (xs ys : List Effect) : pings (xs ++ ys) = pings xs + pings ys := by
  simp [pings]

theorem pings_nil : pings [] = 0 := rfl

theorem pings_cons (e : Effect) (es : List Effect) :
    pings (e :: es) = (if e.isRegister = true then 1 else 0) + pings es := by
  cases he : e.isRegister <;> simp [pings, List.filter, he, Nat.add_comm]

theorem isRegister_pingCall (r : registrar) : (pingCall r).isRegister = true := rfl

theorem isRegister_pingReturn (r : registrar) (err : Option GoError) :
    (pingReturn r err).isRegister = false := by
  cases err <;> rfl

theorem isRegister_logStarting (a b : String) (c d : time.Duration) :
    (Effect.logStarting a b c d).isRegister = false := rfl

theorem isRegister_newTicker (d : time.Duration) : (Effect.newTicker d).isRegister = false := rfl

theorem isRegister_logStopping (a : String) : (Effect.logStopping a).isRegister = false := rfl

theorem isRegister_tickerStop : Effect.tickerStop.isRegister = false := rfl

theorem isPingReturn_pingCall (r : registrar) : (pingCall r).isPingReturn = false := rfl

theorem isPingReturn_pingReturn (r : registrar) (err : Option GoError) :
    (pingReturn r err).isPingReturn = true := by
  cases err <;> rfl

/-- The reachable states of `Run` in one-shot mode. -/
theorem oneShot_states (r : registrar) (h : r.pingInterval ≤ 0) (sched : List Action)
    (s : RunState) (hs : Run r sched = some s) :
    s.r = r ∧ s.ticker = none ∧
      ((s.pc = .entry ∧ s.out = []) ∨
       (s.pc = .firstPing ∧
          s.out = [.logStarting r.serviceName r.crossAddr r.pingInterval r.pingTimeout,
            pingCall r]) ∨
       (s.pc = .returned ∧ ∃ err,
          s.out = .logStarting r.serviceName r.crossAddr r.pingInterval r.pingTimeout ::
            ping r err)) := by
  refine exec_induction (fun _ s => s.r = r ∧ s.ticker = none ∧
      ((s.pc = .entry ∧ s.out = []) ∨
       (s.pc = .firstPing ∧
          s.out = [.logStarting r.serviceName r.crossAddr r.pingInterval r.pingTimeout,
            pingCall r]) ∨
       (s.pc = .returned ∧ ∃ err,
          s.out = .logStarting r.serviceName r.crossAddr r.pingInterval r.pingTimeout ::
            ping r err))) (init r) ⟨rfl, rfl, Or.inl ⟨rfl, rfl⟩⟩ ?_ sched s hs
  rintro - s a s' - ⟨hr, htk, hpc⟩ hstep
  rcases step_inv s s' a hstep with ⟨-, rfl⟩ | ⟨-, -, hne, rfl⟩ | ⟨-, he, rfl⟩ |
    ⟨err, -, hf, -, rfl⟩ | ⟨_, -, -, hpos, rfl⟩ | ⟨_, -, ht, rfl⟩ | ⟨-, hw, -, rfl⟩ |
    ⟨-, hw, -, rfl⟩
  · exact ⟨hr, htk, hpc⟩
  · exact absurd htk hne
  · rcases hpc with ⟨-, ho⟩ | ⟨hp, -⟩ | ⟨hp, -⟩
    · exact ⟨hr, htk, Or.inr (Or.inl ⟨rfl, by simp [ho, hr]⟩)⟩
    · simp [he] at hp
    · simp [he] at hp
  · rcases hpc with ⟨hp, -⟩ | ⟨-, ho⟩ | ⟨hp, -⟩
    · simp [hf] at hp
    · exact ⟨hr, htk, Or.inr (Or.inr ⟨rfl, err, by simp [ho, hr, ping]⟩)⟩
    · simp [hf] at hp
  · rw [hr] at hpos
    exact absurd h (not_le.mpr hpos)
  · rcases hpc with ⟨hp, -⟩ | ⟨hp, -⟩ | ⟨hp, -⟩ <;> simp [ht] at hp
  · rcases hpc with ⟨hp, -⟩ | ⟨hp, -⟩ | ⟨hp, -⟩ <;> simp [hw] at hp
  · rcases hpc with ⟨hp, -⟩ | ⟨hp, -⟩ | ⟨hp, -⟩ <;> simp [hw] at hp

/-- C1. With `pingInterval ≤ 0`, `Run` issues exactly one announce call and then
returns, whether or not the context is cancelled: the run `call, rpcReturn err`
ends in the returned state after the start log line and one `ping`; and over
every schedule no ticker is ever created, the `select` on `ctx.Done()` is never
reached, the only steps `Run` waits for are its own call and the return of the
one Register RPC (both enabled whatever the context is), and a returned `Run`
has issued exactly one announce call. -/
theorem Run_oneShot (r : registrar) (h : r.pingInterval ≤ 0) :
    (∀ (cancelled : Bool) (err : Option GoError),
      Run r ((if cancelled then [.cancel] else []) ++ [.call, .rpcReturn err]) =
        some { r := r, pc := .returned, ctxDone := cancelled, ticker := none,
               out := .logStarting r.serviceName r.crossAddr r.pingInterval r.pingTimeout ::
                 ping r err }) ∧
    ∀ sched s, Run r sched = some s →
      s.ticker = none ∧ s.pc ≠ .waiting ∧ s.pc ≠ .tickPing ∧ pings s.out ≤ 1 ∧
      (s.pc = .entry → (step s .call).isSome) ∧
      (s.pc = .firstPing → ∀ err, ∃ s', step s (.rpcReturn err) = some s' ∧
        s'.pc = .returned ∧ pings s'.out = 1) ∧
      (s.pc = .returned → pings s.out = 1 ∧ ∃ err,
        s.out = .logStarting r.serviceName r.crossAddr r.pingInterval r.pingTimeout ::
          ping r err) := by
  constructor
  · intro cancelled err
    cases cancelled <;> simp [Run, exec, step, init, h, ping]
  · intro sched s hs
    obtain ⟨hr, htk, hpc⟩ := oneShot_states r h sched s hs
    have hlog : (Effect.logStarting r.serviceName r.crossAddr r.pingInterval
        r.pingTimeout).isRegister = false := rfl
    rcases hpc with ⟨hp, ho⟩ | ⟨hp, ho⟩ | ⟨hp, err, ho⟩
    · refine ⟨htk, by simp [hp], by simp [hp], by simp [ho, pings_nil], ?_, by simp [hp],
        by simp [hp]⟩
      intro _
      simp [step, hp]
    · refine ⟨htk, by simp [hp], by simp [hp], ?_, by simp [hp], ?_, by simp [hp]⟩
      · simp [ho, pings_cons, pings_nil, hlog, isRegister_pingCall]
      · intro _ err
        refine ⟨{ s with pc := .returned, out := s.out ++ [pingReturn s.r err] }, ?_, rfl, ?_⟩
        · simp only [step, hp, hr, h, if_true]
        · simp [ho, pings_append, pings_cons, pings_nil, hlog, isRegister_pingCall,
            isRegister_pingReturn]
    · have hone : pings s.out = 1 := by
        simp [ho, ping, pings_cons, pings_nil, hlog, isRegister_pingCall,
          isRegister_pingReturn]
      exact ⟨htk, by simp [hp], by simp [hp], hone.le, by simp [hp], by simp [hp],
        fun _ => ⟨hone, err, ho⟩⟩

/-- Witness for `Run_oneShot`: the registrar `sampleOneShot`. -/
theorem Run_oneShot_witness :
    sampleOneShot.pingInterval ≤ 0 ∧
    ((Run sampleOneShot [.cancel, .call, .rpcReturn (some "unavailable")]).map
      fun s => (s.pc, s.ticker, pings s.out)) = some (.returned, none, 1) :=
  ⟨by decide, by
    have h := (Run_oneShot sampleOneShot (by decide)).1 true (some "unavailable")
    simp only [if_true, List.singleton_append] at h
    rw [h]
    rfl⟩

theorem ticksReceived_snoc (pre : List Action) (a : Action) :
    ticksReceived (pre ++ [a]) = ticksReceived pre + if a = .recvTick then 1 else 0 := by
  simp only [ticksReceived, List.count_append, List.count_singleton, beq_iff_eq]

theorem count_tick_snoc (pre : List Action) (a : Action) :
    (pre ++ [a]).count .tick = pre.count .tick + if a = .tick then 1 else 0 := by
  simp only [List.count_append, List.count_singleton, beq_iff_eq]

/-- Accounting of announce calls against ticks in periodic mode. -/
theorem periodic_count (r : registrar) (h : 0 < r.pingInterval) (sched : List Action)
    (s : RunState) (hs : Run r sched = some s) :
    s.r = r ∧
    (s.pc = .entry → pings s.out = 0 ∧ ticksReceived sched = 0) ∧
    (s.pc ≠ .entry → pings s.out = 1 + ticksReceived sched) ∧
    ticksReceived sched + (if s.ticker = some true then 1 else 0) ≤ sched.count .tick := by
  refine exec_induction (fun pre s => s.r = r ∧
    (s.pc = .entry → pings s.out = 0 ∧ ticksReceived pre = 0) ∧
    (s.pc ≠ .entry → pings s.out = 1 + ticksReceived pre) ∧
    ticksReceived pre + (if s.ticker = some true then 1 else 0) ≤ pre.count .tick)
    (init r) ⟨rfl, fun _ => ⟨rfl, rfl⟩, fun hne => absurd rfl hne, by simp [init, ticksReceived]⟩
    ?_ sched s hs
  rintro pre s a s' - ⟨hr, he, hne, hle⟩ hstep
  rcases step_inv s s' a hstep with ⟨rfl, rfl⟩ | ⟨rfl, -, -, rfl⟩ | ⟨rfl, hpc, rfl⟩ |
    ⟨err, rfl, -, hnp, rfl⟩ | ⟨err, rfl, hpc, -, rfl⟩ | ⟨err, rfl, hpc, rfl⟩ |
    ⟨rfl, hpc, -, rfl⟩ | ⟨rfl, hpc, htk, rfl⟩
  · simpa [ticksReceived_snoc, count_tick_snoc] using ⟨hr, he, hne, hle⟩
  · refine ⟨hr, ?_, ?_, ?_⟩
    · simpa [ticksReceived_snoc] using he
    · simpa [ticksReceived_snoc] using hne
    · simp only [ticksReceived_snoc, count_tick_snoc, if_true]
      split at hle <;> simp at hle ⊢ <;> omega
  · refine ⟨hr, by simp, ?_, ?_⟩
    · intro _
      obtain ⟨h0, h1⟩ := he hpc
      simp [ticksReceived_snoc, pings_append, pings_cons, pings_nil, isRegister_pingCall,
        isRegister_logStarting, h0, h1]
    · simpa [ticksReceived_snoc, count_tick_snoc] using hle
  · rw [hr] at hnp
    exact absurd hnp (not_le.mpr h)
  · refine ⟨hr, by simp, ?_, ?_⟩
    · intro _
      have := hne (by simp [hpc])
      simp [ticksReceived_snoc, pings_append, pings_cons, pings_nil, isRegister_pingReturn,
        isRegister_newTicker, this]
    · simp only [ticksReceived_snoc, count_tick_snoc]
      split at hle <;> simp at hle ⊢ <;> omega
  · refine ⟨hr, by simp, ?_, ?_⟩
    · intro _
      have := hne (by simp [hpc])
      simp [ticksReceived_snoc, pings_append, pings_cons, pings_nil, isRegister_pingReturn,
        this]
    · simpa [ticksReceived_snoc, count_tick_snoc] using hle
  · refine ⟨hr, by simp, ?_, ?_⟩
    · intro _
      have := hne (by simp [hpc])
      simp [ticksReceived_snoc, pings_append, pings_cons, pings_nil, isRegister_logStopping,
        isRegister_tickerStop, this]
    · simpa [ticksReceived_snoc, count_tick_snoc] using hle
  · refine ⟨hr, by simp, ?_, ?_⟩
    · intro _
      have := hne (by simp [hpc])
      simp [ticksReceived_snoc, pings_append, pings_cons, pings_nil, isRegister_pingCall,
        this]
      omega
    · simp only [ticksReceived_snoc, count_tick_snoc, htk, if_true] at hle ⊢
      simpa using hle

theorem isPingReturn_logStarting (a b : String) (c d : time.Duration) :
    (Effect.logStarting a b c d).isPingReturn = false := rfl

theorem isPingReturn_newTicker (d : time.Duration) :
    (Effect.newTicker d).isPingReturn = false := rfl

theorem isPingReturn_logStopping (a : String) : (Effect.logStopping a).isPingReturn = false := rfl

theorem isPingReturn_tickerStop : Effect.tickerStop.isPingReturn = false := rfl

/-- The effects of `Run` never overlap two announce calls: scanning them leaves a
call in flight exactly when `Run` stands inside `ping`. -/
theorem periodic_sequential (r : registrar) (sched : List Action) (s : RunState)
    (hs : Run r sched = some s) (tail : List Effect) :
    sequentialFrom false (s.out ++ tail) =
      sequentialFrom (decide (s.pc = .firstPing ∨ s.pc = .tickPing)) tail := by
  revert tail
  refine exec_induction (fun _ s => ∀ tail, sequentialFrom false (s.out ++ tail) =
      sequentialFrom (decide (s.pc = .firstPing ∨ s.pc = .tickPing)) tail)
    (init r) (fun tail => by simp [init]) ?_ sched s hs
  rintro - s a s' - ih hstep tail
  rcases step_inv s s' a hstep with ⟨-, rfl⟩ | ⟨-, -, -, rfl⟩ | ⟨-, hpc, rfl⟩ |
    ⟨err, -, hpc, -, rfl⟩ | ⟨err, -, hpc, -, rfl⟩ | ⟨err, -, hpc, rfl⟩ |
    ⟨-, hpc, -, rfl⟩ | ⟨-, hpc, -, rfl⟩
  · exact ih tail
  · exact ih tail
  · simp only [List.append_assoc, ih, hpc]
    simp [sequentialFrom, isRegister_logStarting, isPingReturn_logStarting,
      isRegister_pingCall]
  · simp only [List.append_assoc, ih, hpc]
    simp [sequentialFrom, isRegister_pingReturn, isPingReturn_pingReturn]
  · simp only [List.append_assoc, ih, hpc]
    simp [sequentialFrom, isRegister_pingReturn, isPingReturn_pingReturn,
      isRegister_newTicker, isPingReturn_newTicker]
  · simp only [List.append_assoc, ih, hpc]
    simp [sequentialFrom, isRegister_pingReturn, isPingReturn_pingReturn]
  · simp only [List.append_assoc, ih, hpc]
    simp [sequentialFrom, isRegister_logStopping, isPingReturn_logStopping,
      isRegister_tickerStop, isPingReturn_tickerStop]
  · simp only [List.append_assoc, ih, hpc]
    simp [sequentialFrom, isRegister_pingCall]

/-- In periodic mode the ticker is created once, right after the first announce
call has returned. -/
theorem periodic_shape (r : registrar) (h : 0 < r.pingInterval) (sched : List Action)
    (s : RunState) (hs : Run r sched = some s) :
    s.r = r ∧
    ((s.pc = .entry ∧ s.ticker = none ∧ s.out = []) ∨
     (s.pc = .firstPing ∧ s.ticker = none ∧
        s.out = [.logStarting r.serviceName r.crossAddr r.pingInterval r.pingTimeout,
          pingCall r]) ∨
     ((s.pc = .waiting ∨ s.pc = .tickPing ∨ s.pc = .returned) ∧ s.ticker ≠ none ∧
        ∃ err rest,
          s.out = .logStarting r.serviceName r.crossAddr r.pingInterval r.pingTimeout ::
            ping r err ++ .newTicker r.pingInterval :: rest ∧
          ∀ d, .newTicker d ∉ rest)) := by
  refine exec_induction (fun _ s => s.r = r ∧
    ((s.pc = .entry ∧ s.ticker = none ∧ s.out = []) ∨
     (s.pc = .firstPing ∧ s.ticker = none ∧
        s.out = [.logStarting r.serviceName r.crossAddr r.pingInterval r.pingTimeout,
          pingCall r]) ∨
     ((s.pc = .waiting ∨ s.pc = .tickPing ∨ s.pc = .returned) ∧ s.ticker ≠ none ∧
        ∃ err rest,
          s.out = .logStarting r.serviceName r.crossAddr r.pingInterval r.pingTimeout ::
            ping r err ++ .newTicker r.pingInterval :: rest ∧
          ∀ d, .newTicker d ∉ rest)))
    (init r) ⟨rfl, Or.inl ⟨rfl, rfl, rfl⟩⟩ ?_ sched s hs
  rintro - s a s' - ⟨hr, hsh⟩ hstep
  have hcall : ∀ d, Effect.newTicker d ≠ pingCall r := by
    intro d hd
    simp [pingCall] at hd
  have hret : ∀ d err, Effect.newTicker d ≠ pingReturn r err := by
    intro d err hd
    cases err <;> simp [pingReturn] at hd
  rcases step_inv s s' a hstep with ⟨-, rfl⟩ | ⟨-, -, hne, rfl⟩ | ⟨-, hpc, rfl⟩ |
    ⟨err, -, -, hnp, rfl⟩ | ⟨err, -, hpc, -, rfl⟩ | ⟨err, -, hpc, rfl⟩ |
    ⟨-, hpc, -, rfl⟩ | ⟨-, hpc, -, rfl⟩
  · exact ⟨hr, hsh⟩
  · refine ⟨hr, ?_⟩
    rcases hsh with ⟨-, ht, -⟩ | ⟨-, ht, -⟩ | ⟨hp, -, hout⟩
    · exact absurd ht hne
    · exact absurd ht hne
    · exact Or.inr (Or.inr ⟨hp, by simp, hout⟩)
  · refine ⟨hr, ?_⟩
    rcases hsh with ⟨-, ht, ho⟩ | ⟨hp, -⟩ | ⟨hp, -⟩
    · exact Or.inr (Or.inl ⟨rfl, ht, by simp [ho, hr]⟩)
    · simp [hpc] at hp
    · simp [hpc] at hp
  · rw [hr] at hnp
    exact absurd hnp (not_le.mpr h)
  · refine ⟨hr, ?_⟩
    rcases hsh with ⟨hp, -⟩ | ⟨-, -, ho⟩ | ⟨hp, -⟩
    · simp [hpc] at hp
    · exact Or.inr (Or.inr ⟨Or.inl rfl, by simp, err, [], by simp [ho, hr, ping], by simp⟩)
    · simp [hpc] at hp
  · refine ⟨hr, ?_⟩
    rcases hsh with ⟨hp, -⟩ | ⟨hp, -⟩ | ⟨-, ht, e, rest, ho, hnt⟩
    · simp [hpc] at hp
    · simp [hpc] at hp
    · refine Or.inr (Or.inr ⟨Or.inl rfl, ht, e, rest ++ [pingReturn r err], ?_, ?_⟩)
      · simp [ho, hr, ping]
      · intro d hd
        rcases List.mem_append.mp hd with hd | hd
        · exact hnt d hd
        · exact hret d err (List.mem_singleton.mp hd)
  · refine ⟨hr, ?_⟩
    rcases hsh with ⟨hp, -⟩ | ⟨hp, -⟩ | ⟨-, ht, e, rest, ho, hnt⟩
    · simp [hpc] at hp
    · simp [hpc] at hp
    · refine Or.inr (Or.inr ⟨Or.inr (Or.inr rfl), ht, e,
        rest ++ [.logStopping r.serviceName, .tickerStop], ?_, ?_⟩)
      · simp [ho, hr, ping]
      · intro d hd
        rcases List.mem_append.mp hd with hd | hd
        · exact hnt d hd
        · simp at hd
  · refine ⟨hr, ?_⟩
    rcases hsh with ⟨hp, -⟩ | ⟨hp, -⟩ | ⟨-, -, e, rest, ho, hnt⟩
    · simp [hpc] at hp
    · simp [hpc] at hp
    · refine Or.inr (Or.inr ⟨Or.inr (Or.inl rfl), by simp, e, rest ++ [pingCall r], ?_, ?_⟩)
      · simp [ho, hr, ping]
      · intro d hd
        rcases List.mem_append.mp hd with hd | hd
        · exact hnt d hd
        · exact hcall d (List.mem_singleton.mp hd)

/-- In periodic mode `Run` returns only through `case <-ctx.Done()`. -/
theorem periodic_returned (r : registrar) (h : 0 < r.pingInterval) (sched : List Action)
    (s : RunState) (hs : Run r sched = some s) :
    s.r = r ∧ (s.pc = .returned → s.ctxDone = true ∧ .recvDone ∈ sched ∧
      ∃ o, s.out = o ++ [.logStopping r.serviceName, .tickerStop]) := by
  refine exec_induction (fun pre s => s.r = r ∧ (s.pc = .returned → s.ctxDone = true ∧
      .recvDone ∈ pre ∧ ∃ o, s.out = o ++ [.logStopping r.serviceName, .tickerStop]))
    (init r) ⟨rfl, fun hp => by simp [init] at hp⟩ ?_ sched s hs
  rintro pre s a s' - ⟨hr, hret⟩ hstep
  rcases step_inv s s' a hstep with ⟨-, rfl⟩ | ⟨-, hpc, -, rfl⟩ | ⟨-, -, rfl⟩ |
    ⟨err, -, -, hnp, rfl⟩ | ⟨err, -, -, -, rfl⟩ | ⟨err, -, -, rfl⟩ |
    ⟨rfl, -, hd, rfl⟩ | ⟨-, -, -, rfl⟩
  · refine ⟨hr, fun hp => ?_⟩
    obtain ⟨-, hm, ho⟩ := hret hp
    exact ⟨rfl, List.mem_append_left _ hm, ho⟩
  · exact ⟨hr, fun hp => absurd hp hpc⟩
  · exact ⟨hr, fun hp => by simp at hp⟩
  · rw [hr] at hnp
    exact absurd hnp (not_le.mpr h)
  · exact ⟨hr, fun hp => by simp at hp⟩
  · exact ⟨hr, fun hp => by simp at hp⟩
  · exact ⟨hr, fun _ => ⟨hd, by simp, s.out, by simp [hr]⟩⟩
  · exact ⟨hr, fun hp => by simp at hp⟩

/-- C2 (as stated) fails.  On the schedule `slowPing` the registrar `sample`
(one-second interval) is cancelled after three ticker periods have elapsed, and
`Run` returns having issued three announce calls, not four: the tick that
elapsed while another was pending was dropped. -/
theorem Run_count_differs_from_elapsed_intervals :
    0 < sample.pingInterval ∧
    ((Run sample slowPing).map fun s => (s.pc, pings s.out)) = some (.returned, 3) ∧
    intervalsBeforeCancel slowPing = 3 := by
  decide

/-- The periodic loop keeps going: the steps that `Run` and its ticker can take
from each point of the loop. -/
theorem periodic_progress (r : registrar) (h : 0 < r.pingInterval) (s : RunState)
    (hr : s.r = r) :
    (s.pc = .entry → ∃ s', step s .call = some s' ∧ s'.pc = .firstPing ∧
      s'.out = s.out ++
        [.logStarting r.serviceName r.crossAddr r.pingInterval r.pingTimeout, pingCall r]) ∧
    (s.pc = .firstPing → ∀ err, ∃ s', step s (.rpcReturn err) = some s' ∧
      s'.pc = .waiting ∧ s'.ticker = some false ∧
      s'.out = s.out ++ [pingReturn r err, .newTicker r.pingInterval]) ∧
    (s.pc ≠ .returned → s.ticker ≠ none → ∃ s', step s .tick = some s' ∧
      s'.ticker = some true ∧ s'.pc = s.pc ∧ s'.out = s.out) ∧
    (s.pc = .waiting → s.ticker = some true → ∃ s', step s .recvTick = some s' ∧
      s'.pc = .tickPing ∧ s'.ticker = some false ∧ s'.out = s.out ++ [pingCall r] ∧
      pings s'.out = pings s.out + 1) ∧
    (s.pc = .tickPing → ∀ err, ∃ s', step s (.rpcReturn err) = some s' ∧
      s'.pc = .waiting ∧ s'.ticker = s.ticker ∧ s'.out = s.out ++ [pingReturn r err]) ∧
    (s.pc = .waiting → s.ctxDone = false → ∀ a s', a ≠ .cancel → a ≠ .tick →
      step s a = some s' → a = .recvTick ∧ s.ticker = some true) := by
  have hpos : ¬ s.r.pingInterval ≤ 0 := by
    rw [hr]
    exact not_le.mpr h
  refine ⟨?_, ?_, ?_, ?_, ?_, ?_⟩
  · intro hp
    exact ⟨{ s with
        pc := .firstPing
        out := s.out ++
          [.logStarting s.r.serviceName s.r.crossAddr s.r.pingInterval s.r.pingTimeout,
           pingCall s.r] }, by simp only [step, hp], rfl, by rw [hr]⟩
  · intro hp err
    exact ⟨{ s with
        pc := .waiting
        ticker := some false
        out := s.out ++ [pingReturn s.r err, .newTicker s.r.pingInterval] },
      by simp only [step, hp, hpos, if_false], rfl, rfl, by rw [hr]⟩
  · intro hp ht
    rcases htk : s.ticker with _ | b
    · exact absurd htk ht
    · refine ⟨{ s with ticker := some true }, ?_, rfl, rfl, rfl⟩
      cases hpc : s.pc <;> simp [step, hpc, htk] at hp ⊢
  · intro hp ht
    refine ⟨{ s with pc := .tickPing, ticker := some false, out := s.out ++ [pingCall s.r] },
      by simp only [step, hp, ht], rfl, rfl, by rw [hr], ?_⟩
    simp [pings_append, pings_cons, pings_nil, isRegister_pingCall]
  · intro hp err
    exact ⟨{ s with pc := .waiting, out := s.out ++ [pingReturn s.r err] },
      by simp only [step, hp], rfl, rfl, by rw [hr]⟩
  · intro hp hc a s' hnc hnt hstep
    rcases step_inv s s' a hstep with ⟨rfl, -⟩ | ⟨rfl, -⟩ | ⟨-, he, -⟩ |
      ⟨_, -, hf, -⟩ | ⟨_, -, hf, -⟩ | ⟨_, -, hf, -⟩ | ⟨-, -, hd, -⟩ | ⟨rfl, -, ht, -⟩
    · exact absurd rfl hnc
    · exact absurd rfl hnt
    · simp [hp] at he
    · simp [hp] at hf
    · simp [hp] at hf
    · simp [hp] at hf
    · simp [hc] at hd
    · exact ⟨rfl, ht⟩

/-- C2 (amended). With `pingInterval > 0`, over every schedule: the first announce
call is issued and has returned before the ticker is created, and the ticker is
created once; once `Run` is entered the number of announce calls issued is 1
plus the number of ticks the `select` received from `ticker.C`; every received
tick is a ticker period that elapsed; announce calls never overlap; and `Run`
returns only after the context is cancelled.  And the loop keeps announcing:
entering `Run` issues the immediate announce call; when it returns, with any
outcome, the ticker is created and `Run` stands at the `select`; every elapsed
period makes a tick pending; a pending tick can be received at the `select`,
which issues exactly one more announce call; when that call returns, with any
outcome, `Run` stands at the `select` again; and while the context is not
cancelled the only step `Run` can take at the `select` is to receive a pending
tick. -/
theorem Run_periodic_one_announce_per_received_tick (r : registrar)
    (h : 0 < r.pingInterval) (sched : List Action) (s : RunState)
    (hs : Run r sched = some s) :
    (s.pc ≠ .entry → pings s.out = 1 + ticksReceived sched) ∧
    ticksReceived sched ≤ sched.count .tick ∧
    sequential s.out = true ∧
    (s.ticker = none → pings s.out ≤ 1 ∧ ticksReceived sched = 0) ∧
    (s.ticker ≠ none → ∃ err rest,
      s.out = .logStarting r.serviceName r.crossAddr r.pingInterval r.pingTimeout ::
        ping r err ++ .newTicker r.pingInterval :: rest ∧
      ∀ d, .newTicker d ∉ rest) ∧
    (s.pc = .returned → s.ctxDone = true) ∧
    (s.pc = .entry → ∃ s', step s .call = some s' ∧ s'.pc = .firstPing ∧
      s'.out = s.out ++
        [.logStarting r.serviceName r.crossAddr r.pingInterval r.pingTimeout, pingCall r]) ∧
    (s.pc = .firstPing → ∀ err, ∃ s', step s (.rpcReturn err) = some s' ∧
      s'.pc = .waiting ∧ s'.ticker = some false ∧
      s'.out = s.out ++ [pingReturn r err, .newTicker r.pingInterval]) ∧
    (s.pc ≠ .returned → s.ticker ≠ none → ∃ s', step s .tick = some s' ∧
      s'.ticker = some true ∧ s'.pc = s.pc ∧ s'.out = s.out) ∧
    (s.pc = .waiting → s.ticker = some true → ∃ s', step s .recvTick = some s' ∧
      s'.pc = .tickPing ∧ s'.ticker = some false ∧ s'.out = s.out ++ [pingCall r] ∧
      pings s'.out = pings s.out + 1) ∧
    (s.pc = .tickPing → ∀ err, ∃ s', step s (.rpcReturn err) = some s' ∧
      s'.pc = .waiting ∧ s'.ticker = s.ticker ∧ s'.out = s.out ++ [pingReturn r err]) ∧
    (s.pc = .waiting → s.ctxDone = false → ∀ a s', a ≠ .cancel → a ≠ .tick →
      step s a = some s' → a = .recvTick ∧ s.ticker = some true) := by
  obtain ⟨hr, he, hne, hle⟩ := periodic_count r h sched s hs
  obtain ⟨-, hsh⟩ := periodic_shape r h sched s hs
  obtain ⟨-, hret⟩ := periodic_returned r h sched s hs
  have hseq := periodic_sequential r sched s hs []
  refine ⟨hne, by omega, ?_, ?_, ?_, fun hp => (hret hp).1, periodic_progress r h s hr⟩
  · rw [List.append_nil] at hseq
    rw [sequential, hseq]
    rfl
  · intro ht
    rcases hsh with ⟨hp, -, -⟩ | ⟨hp, -, ho⟩ | ⟨-, hn, -⟩
    · obtain ⟨h0, h1⟩ := he hp
      exact ⟨by omega, h1⟩
    · have h1 := hne (by simp [hp])
      have h2 : pings s.out = 1 := by
        simp [ho, pings_cons, pings_nil, isRegister_logStarting, isRegister_pingCall]
      exact ⟨h2.le, by omega⟩
    · exact absurd ht hn
  · intro ht
    rcases hsh with ⟨-, hn, -⟩ | ⟨-, hn, -⟩ | ⟨-, -, hex⟩
    · exact absurd hn ht
    · exact absurd hn ht
    · exact hex

/-- Witness for `Run_periodic_one_announce_per_received_tick`: the registrar
`sample` on the schedule `slowPing`. -/
theorem Run_periodic_one_announce_per_received_tick_witness :
    0 < sample.pingInterval ∧
    ∃ s, Run sample slowPing = some s ∧ pings s.out = 1 + ticksReceived slowPing :=
  ⟨by decide, _, rfl,
    (Run_periodic_one_announce_per_received_tick sample (by decide) slowPing _ rfl).1
      (by decide)⟩

/-- C3 (as stated) fails.  On the schedule `cancelDuringPing` the context of the
registrar `sample` is cancelled while a tick is pending; `Run` reaches its
`select` with `ctx.Done()` ready and two announce calls issued, and the step
that takes `case <-ticker.C` is enabled there and starts a third announce call. -/
theorem Run_may_announce_after_cancel :
    0 < sample.pingInterval ∧
    (Run sample cancelDuringPing).map control = some (.waiting, true, some true, 2) ∧
    (Run sample (cancelDuringPing ++ [.recvTick])).map control =
      some (.tickPing, true, some false, 3) := by
  decide

/-- C3 (amended). With `pingInterval > 0`, in every state reached with the context
cancelled: the context stays cancelled; at the `select`, returning is enabled
and issues no announce call; at the `select` with no tick pending, returning is
the only step `Run` can take; after `Run` is entered a further announce call
can start only by the `select` taking a pending tick; and an announce call in
flight only has to return, with any outcome, for `Run` to stand at the `select`
with returning enabled. -/
theorem Run_after_cancel (r : registrar) (h : 0 < r.pingInterval) (sched : List Action)
    (s : RunState) (hs : Run r sched = some s) (hc : s.ctxDone = true) :
    (∀ a s', step s a = some s' → s'.ctxDone = true) ∧
    (s.pc = .waiting → ∃ s', step s .recvDone = some s' ∧ s'.pc = .returned ∧
      pings s'.out = pings s.out) ∧
    (s.pc = .waiting → s.ticker ≠ some true → ∀ a s', a ≠ .cancel → a ≠ .tick →
      step s a = some s' → a = .recvDone ∧ s'.pc = .returned ∧ pings s'.out = pings s.out) ∧
    (s.pc ≠ .entry → ∀ a s', step s a = some s' → pings s'.out ≠ pings s.out →
      a = .recvTick ∧ s.pc = .waiting ∧ s.ticker = some true) ∧
    ((s.pc = .firstPing ∨ s.pc = .tickPing) → ∀ err, ∃ s', step s (.rpcReturn err) = some s' ∧
      s'.pc = .waiting ∧ s'.ctxDone = true ∧ pings s'.out = pings s.out ∧
      ∃ s'', step s' .recvDone = some s'' ∧ s''.pc = .returned) := by
  have hr := Run_r r sched s hs
  have hpos : ¬ s.r.pingInterval ≤ 0 := by
    rw [hr]
    exact not_le.mpr h
  refine ⟨?_, ?_, ?_, ?_, ?_⟩
  · intro a s' hstep
    rcases step_inv s s' a hstep with ⟨-, rfl⟩ | ⟨-, -, -, rfl⟩ | ⟨-, -, rfl⟩ |
      ⟨_, -, -, -, rfl⟩ | ⟨_, -, -, -, rfl⟩ | ⟨_, -, -, rfl⟩ | ⟨-, -, -, rfl⟩ |
      ⟨-, -, -, rfl⟩ <;> first | rfl | exact hc
  · intro hp
    refine ⟨{ s with pc := .returned,
                     out := s.out ++ [.logStopping s.r.serviceName, .tickerStop] }, ?_, rfl, ?_⟩
    · simp only [step, hp, hc]
    · simp [pings_append, pings_cons, pings_nil, isRegister_logStopping,
        isRegister_tickerStop]
  · intro hp htk a s' hnc hnt hstep
    rcases step_inv s s' a hstep with ⟨rfl, -⟩ | ⟨rfl, -⟩ | ⟨-, he, -⟩ |
      ⟨_, -, hf, -⟩ | ⟨_, -, hf, -⟩ | ⟨_, -, hf, -⟩ | ⟨rfl, -, -, rfl⟩ | ⟨-, -, ht, -⟩
    · exact absurd rfl hnc
    · exact absurd rfl hnt
    · simp [hp] at he
    · simp [hp] at hf
    · simp [hp] at hf
    · simp [hp] at hf
    · refine ⟨rfl, rfl, ?_⟩
      simp [pings_append, pings_cons, pings_nil, isRegister_logStopping,
        isRegister_tickerStop]
    · exact absurd ht htk
  · intro hne a s' hstep hpings
    rcases step_inv s s' a hstep with ⟨-, rfl⟩ | ⟨-, -, -, rfl⟩ | ⟨-, he, -⟩ |
      ⟨_, -, -, -, rfl⟩ | ⟨_, -, -, -, rfl⟩ | ⟨_, -, -, rfl⟩ | ⟨-, -, -, rfl⟩ |
      ⟨rfl, hp, ht, -⟩
    · exact absurd rfl hpings
    · exact absurd rfl hpings
    · exact absurd he hne
    · simp [pings_append, pings_cons, pings_nil, isRegister_pingReturn] at hpings
    · simp [pings_append, pings_cons, pings_nil, isRegister_pingReturn,
        isRegister_newTicker] at hpings
    · simp [pings_append, pings_cons, pings_nil, isRegister_pingReturn] at hpings
    · simp [pings_append, pings_cons, pings_nil, isRegister_logStopping,
        isRegister_tickerStop] at hpings
    · exact ⟨rfl, hp, ht⟩
  · intro hp err
    rcases hp with hp | hp
    · refine ⟨{ s with pc := .waiting, ticker := some false,
                       out := s.out ++ [pingReturn s.r err, .newTicker s.r.pingInterval] },
        ?_, rfl, hc, ?_, ?_⟩
      · simp only [step, hp, hpos, if_false]
      · simp [pings_append, pings_cons, pings_nil, isRegister_pingReturn,
          isRegister_newTicker]
      · exact ⟨_, by simp only [step, hc]; rfl, rfl⟩
    · refine ⟨{ s with pc := .waiting, out := s.out ++ [pingReturn s.r err] },
        ?_, rfl, hc, ?_, ?_⟩
      · simp only [step, hp]
      · simp [pings_append, pings_cons, pings_nil, isRegister_pingReturn]
      · exact ⟨_, by simp only [step, hc]; rfl, rfl⟩

/-- Witness for `Run_after_cancel`: the registrar `sample`, cancelled while it
waits at the `select` with no tick pending. -/
theorem Run_after_cancel_witness :
    0 < sample.pingInterval ∧
    ∃ s, Run sample [.call, .rpcReturn none, .cancel] = some s ∧ s.ctxDone = true ∧
      ∃ s', step s .recvDone = some s' ∧ s'.pc = .returned ∧ pings s'.out = pings s.out :=
  ⟨by decide, _, rfl, rfl,
    (Run_after_cancel sample (by decide) [.call, .rpcReturn none, .cancel] _ rfl rfl).2.1 rfl⟩

/-- Two states of the same registrar that agree on control take matching steps,
whatever the Register RPCs returned. -/
theorem step_eraseErr (s t : RunState) (a b : Action) (hr : s.r = t.r)
    (hc : control s = control t) (hab : a.eraseErr = b.eraseErr) :
    (step s a = none ∧ step t b = none) ∨
    ∃ s' t', step s a = some s' ∧ step t b = some t' ∧ s'.r = t'.r ∧
      control s' = control t' := by
  obtain ⟨sr, spc, sc, stk, so⟩ := s
  obtain ⟨tr, tpc, tc, ttk, tout⟩ := t
  simp only [control, Prod.mk.injEq] at hc
  obtain ⟨rfl, rfl, rfl, hp⟩ := hc
  simp only at hr hp
  subst hr
  cases a <;> cases b <;> simp only [Action.eraseErr, reduceCtorEq] at hab
  · exact Or.inr ⟨_, _, rfl, rfl, rfl, by simp [control, hp]⟩
  · cases spc <;> cases stk <;> simp [step, control, hp]
  · cases spc <;> simp [step, control, hp, pings_append, pings_cons, pings_nil,
      isRegister_logStarting, isRegister_pingCall]
  · cases spc <;> simp only [step]
    · simp
    · by_cases hle : sr.pingInterval ≤ 0
      · simp [hle, control, hp, pings_append, pings_cons, pings_nil, isRegister_pingReturn]
      · simp [hle, control, hp, pings_append, pings_cons, pings_nil, isRegister_pingReturn,
          isRegister_newTicker]
    · simp
    · simp [control, hp, pings_append, pings_cons, pings_nil, isRegister_pingReturn]
    · simp
  · cases spc <;> cases sc <;> simp [step, control, hp, pings_append, pings_cons, pings_nil,
      isRegister_logStopping, isRegister_tickerStop]
  · cases spc <;> rcases stk with _ | _ | _ <;>
      simp [step, control, hp, pings_append, pings_cons, pings_nil, isRegister_pingCall]

theorem exec_eraseErr (l₁ l₂ : List Action) (s t : RunState) (hr : s.r = t.r)
    (hc : control s = control t) (hl : l₁.map Action.eraseErr = l₂.map Action.eraseErr) :
    (exec s l₁).map control = (exec t l₂).map control := by
  induction l₁ generalizing l₂ s t with
  | nil =>
    cases l₂ with
    | nil => simp [exec, hc]
    | cons b bs => simp at hl
  | cons a as ih =>
    cases l₂ with
    | nil => simp at hl
    | cons b bs =>
      simp only [List.map_cons, List.cons.injEq] at hl
      rcases step_eraseErr s t a b hr hc hl.1 with ⟨h1, h2⟩ | ⟨s', t', h1, h2, hr', hc'⟩
      · simp [exec, h1, h2]
      · simpa [exec, h1, h2] using ih bs s' t' hr' hc' hl.2

/-- C4. With `pingInterval > 0`, two schedules that differ only in what the Register
RPCs return drive `Run` identically: either both are not enabled, or both
reach states with the same program counter, context, ticker and number of
announce calls issued.  And `Run` returns only by taking `case <-ctx.Done()`:
a returned run has the context cancelled, took that case, and ends with the
"stopping heartbeat" log line and the deferred `ticker.Stop()`. -/
theorem Run_ignores_announce_outcome (r : registrar) (h : 0 < r.pingInterval)
    (sched₁ sched₂ : List Action)
    (hsame : sched₁.map Action.eraseErr = sched₂.map Action.eraseErr) :
    (Run r sched₁).map control = (Run r sched₂).map control ∧
    ∀ s, Run r sched₁ = some s → s.pc = .returned →
      s.ctxDone = true ∧ .recvDone ∈ sched₁ ∧
      ∃ o, s.out = o ++ [.logStopping r.serviceName, .tickerStop] :=
  ⟨exec_eraseErr sched₁ sched₂ (init r) (init r) rfl rfl hsame,
   fun s hs hp => (periodic_returned r h sched₁ s hs).2 hp⟩

/-- Witness for `Run_ignores_announce_outcome`: the registrar `sample` with every
announce succeeding and with every announce failing. -/
theorem Run_ignores_announce_outcome_witness :
    0 < sample.pingInterval ∧
    (Run sample [.call, .rpcReturn none, .tick, .recvTick, .rpcReturn none, .cancel,
        .recvDone]).map control =
      (Run sample [.call, .rpcReturn (some "timeout"), .tick, .recvTick,
        .rpcReturn (some "unavailable"), .cancel, .recvDone]).map control :=
  ⟨by decide,
   (Run_ignores_announce_outcome sample (by decide)
      [.call, .rpcReturn none, .tick, .recvTick, .rpcReturn none, .cancel, .recvDone]
      [.call, .rpcReturn (some "timeout"), .tick, .recvTick,
        .rpcReturn (some "unavailable"), .cancel, .recvDone] (by decide)).1⟩

/-- Every Register RPC that `Run` issues is the one `ping` builds from the receiver. -/
theorem Run_registers (r : registrar) (sched : List Action) (s : RunState)
    (hs : Run r sched = some s) :
    s.r = r ∧ ∀ e ∈ s.out, e.isRegister = true → e = pingCall r := by
  refine exec_induction (fun _ s => s.r = r ∧ ∀ e ∈ s.out, e.isRegister = true →
    e = pingCall r) (init r) ⟨rfl, by simp [init]⟩ ?_ sched s hs
  rintro - s a s' - ⟨hr, hall⟩ hstep
  refine ⟨(step_r s s' a hstep).trans hr, ?_⟩
  rcases step_inv s s' a hstep with ⟨-, rfl⟩ | ⟨-, -, -, rfl⟩ | ⟨-, -, rfl⟩ |
    ⟨err, -, -, -, rfl⟩ | ⟨err, -, -, -, rfl⟩ | ⟨err, -, -, rfl⟩ | ⟨-, -, -, rfl⟩ |
    ⟨-, -, -, rfl⟩
  · exact hall
  · exact hall
  · intro e he hreg
    simp only [List.mem_append, List.mem_cons, List.mem_singleton, List.not_mem_nil,
      or_false] at he
    rcases he with he | rfl | rfl
    · exact hall e he hreg
    · simp [isRegister_logStarting] at hreg
    · rw [hr]
  · intro e he hreg
    simp only [List.mem_append, List.mem_singleton] at he
    rcases he with he | rfl
    · exact hall e he hreg
    · simp [isRegister_pingReturn] at hreg
  · intro e he hreg
    simp only [List.mem_append, List.mem_cons, List.mem_singleton, List.not_mem_nil,
      or_false] at he
    rcases he with he | rfl | rfl
    · exact hall e he hreg
    · simp [isRegister_pingReturn] at hreg
    · simp [isRegister_newTicker] at hreg
  · intro e he hreg
    simp only [List.mem_append, List.mem_singleton] at he
    rcases he with he | rfl
    · exact hall e he hreg
    · simp [isRegister_pingReturn] at hreg
  · intro e he hreg
    simp only [List.mem_append, List.mem_cons, List.mem_singleton, List.not_mem_nil,
      or_false] at he
    rcases he with he | rfl | rfl
    · exact hall e he hreg
    · simp [isRegister_logStopping] at hreg
    · simp [isRegister_tickerStop] at hreg
  · intro e he hreg
    simp only [List.mem_append, List.mem_singleton] at he
    rcases he with he | rfl
    · exact hall e he hreg
    · rw [hr]

/-- C6. `New` returns `(nil, err)` exactly when `grpc.NewClient` returns the error
`err` for `crossAddr`; when `grpc.NewClient` returns no error, `New` returns a
nil error and a registrar that holds the connection `grpc.NewClient` returned,
a client bound to it, and every argument unchanged in its own field.  The
registrar is nil exactly when the error is not.  No other argument takes part
in the decision. -/
theorem New_fails_iff_NewClient_fails
    (NewClient : String → Ptr ClientConn × Option GoError)
    (crossAddr listenAddr agencyID serviceName : String)
    (produces consumes : Slice String) (routes : Slice (Ptr RouteDeclaration))
    (pingInterval pingTimeout : time.Duration) :
    (∀ err, New NewClient crossAddr listenAddr agencyID serviceName produces consumes routes
        pingInterval pingTimeout = (none, some err) ↔ (NewClient crossAddr).2 = some err) ∧
    ((NewClient crossAddr).2 = none →
      New NewClient crossAddr listenAddr agencyID serviceName produces consumes routes
        pingInterval pingTimeout =
      (some
        { crossAddr := crossAddr, listenAddr := listenAddr, agencyID := agencyID,
          serviceName := serviceName, produces := produces, consumes := consumes,
          routes := routes, pingInterval := pingInterval, pingTimeout := pingTimeout,
          conn := (NewClient crossAddr).1, client := { cc := (NewClient crossAddr).1 } },
       none)) ∧
    ((New NewClient crossAddr listenAddr agencyID serviceName produces consumes routes
        pingInterval pingTimeout).1 = none ↔
      (New NewClient crossAddr listenAddr agencyID serviceName produces consumes routes
        pingInterval pingTimeout).2 ≠ none) := by
  rcases hN : NewClient crossAddr with ⟨conn, _ | e⟩
  · simp [New, hN]
  · refine ⟨fun err => ?_, ?_, ?_⟩
    · simp only [New, hN, Prod.mk.injEq, true_and]
    · simp
    · simp [New, hN]

/-- One call of `Close`: it never panics, keeps the receiver, does nothing on a
nil connection, and otherwise invokes `conn.Close()` once and logs exactly when
that call returns an error. -/
theorem Close_ok (connClose : Nat → Option GoError) (w : CloseState) :
    ∃ w', Close connClose w = .ok w' ∧ w'.r = w.r ∧
      (w.r.conn = none → w' = w) ∧
      (w.r.conn ≠ none → w'.closeCalls = w.closeCalls + 1 ∧
        closeLogs w'.out =
          closeLogs w.out + if (connClose w.closeCalls).isSome then 1 else 0) := by
  cases hc : w.r.conn with
  | none => exact ⟨w, by simp [Close, hc], rfl, fun _ => rfl, fun hne => absurd rfl hne⟩
  | some cc =>
    cases he : connClose w.closeCalls with
    | none =>
      refine ⟨{ w with closeCalls := w.closeCalls + 1, out := w.out ++ [.connClose cc] },
        by simp [Close, hc, deref, he], rfl, fun hn => by simp at hn, fun _ => ⟨rfl, ?_⟩⟩
      simp [closeLogs, List.filter_append, List.filter]
    | some err =>
      refine ⟨{ w with closeCalls := w.closeCalls + 1,
                       out := w.out ++ [.connClose cc, .logCloseFailed w.r.serviceName err] },
        by simp [Close, hc, deref, he], rfl, fun hn => by simp at hn, fun _ => ⟨rfl, ?_⟩⟩
      simp [closeLogs, List.filter_append, List.filter]

/-- Calling `Close` `n` times: the invocations of `conn.Close()` and the log lines
add up call by call. -/
theorem CloseN_ok (connClose : Nat → Option GoError) (n : Nat) (w : CloseState) :
    ∃ s, CloseN connClose n w = .ok s ∧ s.r = w.r ∧
      (w.r.conn = none → s = w) ∧
      (w.r.conn ≠ none → s.closeCalls = w.closeCalls + n ∧
        closeLogs s.out = closeLogs w.out + errorsReturned connClose w.closeCalls n) := by
  induction n generalizing w with
  | zero => exact ⟨w, rfl, rfl, fun _ => rfl, fun _ => ⟨rfl, rfl⟩⟩
  | succ n ih =>
    obtain ⟨w', hw', hr', hnil', hconn'⟩ := Close_ok connClose w
    obtain ⟨s, hs, hr, hnil, hconn⟩ := ih w'
    refine ⟨s, by simp only [CloseN, hw', hs], hr.trans hr', ?_, ?_⟩
    · intro hn
      rw [← hnil' hn]
      exact hnil (by rw [hr']; exact hn)
    · intro hne
      obtain ⟨h1, h2⟩ := hconn' hne
      obtain ⟨h3, h4⟩ := hconn (by rw [hr']; exact hne)
      refine ⟨by omega, ?_⟩
      rw [h4, h2, h1, errorsReturned]
      omega

/-- C7. For every registrar state (nil connection included), every result of the
underlying `conn.Close()` calls and every `N`, calling `Close` `N` times does
not panic and returns normally; the registrar is unchanged; and for `N ≥ 1` the
registrar and the released status of its connection after the `N`-th call are
those after the first call. -/
theorem Close_idempotent (connClose : Nat → Option GoError) (w : CloseState) (N : Nat) :
    ∃ s, CloseN connClose N w = .ok s ∧ s.r = w.r ∧
      (1 ≤ N → ∃ s₁, CloseN connClose 1 w = .ok s₁ ∧ s.r = s₁.r ∧
        s.released = s₁.released) := by
  obtain ⟨s, hs, hr, hnil, hconn⟩ := CloseN_ok connClose N w
  obtain ⟨s₁, hs₁, hr₁, hnil₁, hconn₁⟩ := CloseN_ok connClose 1 w
  refine ⟨s, hs, hr, fun hN => ⟨s₁, hs₁, hr.trans hr₁.symm, ?_⟩⟩
  by_cases hc : w.r.conn = none
  · rw [hnil hc, hnil₁ hc]
  · have h1 := (hconn hc).1
    have h2 := (hconn₁ hc).1
    have e1 : s.released = true := by simp [CloseState.released]; omega
    have e2 : s₁.released = true := by simp [CloseState.released]; omega
    rw [e1, e2]

/-- C8 (as stated) fails.  Two calls of `Close` on the registrar `sample`, whose
connection is not nil, invoke `conn.Close()` twice, and with the library
returning its "connection is closing" error on the second invocation the
second call logs that error. -/
theorem Close_twice_invokes_connClose_twice :
    sample.conn ≠ none ∧
    (CloseN grpcClose 2 (fresh sample)).map (fun s => (s.closeCalls, closeLogs s.out)) =
      .ok (2, 1) :=
  ⟨by decide, rfl⟩

/-- C8 (amended). For every `N`, `N` calls of `Close` on a registrar whose
connection is not nil invoke `conn.Close()` exactly `N` times, once per call,
leave the registrar unchanged, and write one log line for each invocation that
returned an error and none otherwise; on a registrar whose connection is nil
they do nothing. -/
theorem Close_invokes_connClose_on_every_call (connClose : Nat → Option GoError)
    (w : CloseState) (N : Nat) :
    (w.r.conn ≠ none → ∃ s, CloseN connClose N w = .ok s ∧ s.r = w.r ∧
      s.closeCalls = w.closeCalls + N ∧
      closeLogs s.out = closeLogs w.out + errorsReturned connClose w.closeCalls N) ∧
    (w.r.conn = none → CloseN connClose N w = .ok w) := by
  obtain ⟨s, hs, hr, hnil, hconn⟩ := CloseN_ok connClose N w
  exact ⟨fun hne => ⟨s, hs, hr, (hconn hne).1, (hconn hne).2⟩,
    fun hn => by rw [hs, hnil hn]⟩

end registrar

/-! ## Theorems: package serverutil -/

namespace serverutil

theorem shutdown_exec_append (s : State) (xs ys : List Action) :
    exec s (xs ++ ys) = (exec s xs).bind fun s' => exec s' ys := by
  induction xs generalizing s with
  | nil => simp [exec]
  | cons a as ih =>
    simp only [List.cons_append, exec]
    cases step s a with
    | none => simp
    | some s' => simpa using ih s'

theorem shutdown_exec_snoc (s t : State) (xs : List Action) (a : Action)
    (h : exec s (xs ++ [a]) = some t) : ∃ m, exec s xs = some m ∧ step m a = some t := by
  rw [shutdown_exec_append] at h
  cases hm : exec s xs with
  | none => simp [hm] at h
  | some m =>
    refine ⟨m, rfl, ?_⟩
    simp only [hm, Option.some_bind, exec] at h
    cases hs : step m a with
    | none => simp [hs] at h
    | some t' => simpa [hs] using h

/-- Induction over the schedules that are enabled from a state. -/
theorem shutdown_exec_induction (P : List Action → State → Prop) (s₀ : State)
    (h₀ : P [] s₀)
    (hstep : ∀ pre s a s', exec s₀ pre = some s → P pre s → step s a = some s' →
      P (pre ++ [a]) s') :
    ∀ sched s, exec s₀ sched = some s → P sched s := by
  intro sched
  induction sched using List.reverseRecOn with
  | nil =>
    intro s hs
    simp only [exec, Option.some.injEq] at hs
    exact hs ▸ h₀
  | append_singleton xs a ih =>
    intro s hs
    obtain ⟨m, hm, hma⟩ := shutdown_exec_snoc s₀ s xs a hs
    exact hstep xs m a s hm (ih m hm) hma

/-- Every enabled step is one of the transitions of `RunWithGracefulShutdown`. -/
theorem shutdown_step_inv (s s' : State) (a : Action) (h : step s a = some s') :
    (a = .cancel ∧ s' = { s with ctxDone := true }) ∨
    (a = .call ∧ s.pc = .entry ∧ s' = { s with pc := .awaitCtx, server := .spawned }) ∨
    (a = .serveBegin ∧ s.server = .spawned ∧
      s' = { s with server := .running, out := s.out ++ [.serve s.lis] }) ∨
    (∃ e, a = .serveReturn (some e) ∧ s.server = .running ∧
      s' = { s with server := .finished, out := s.out ++ [.logServeStopped e] }) ∨
    (a = .serveReturn none ∧ s.server = .running ∧ s' = { s with server := .finished }) ∨
    (a = .recvCtx ∧ s.pc = .awaitCtx ∧ s.ctxDone = true ∧
      s' = { s with
        pc := .racing
        drain := .spawned
        timer := some false
        out := s.out ++ [.after s.drainTimeout] }) ∨
    (a = .drainBegin ∧ s.drain = .spawned ∧
      s' = { s with drain := .running, out := s.out ++ [.gracefulStop] }) ∨
    (a = .drainEnd ∧ s.drain = .running ∧
      s' = { s with drain := .finished, out := s.out ++ [.closeDone] }) ∨
    (a = .timerFire ∧ s.timer = some false ∧ s' = { s with timer := some true }) ∨
    (a = .recvDone ∧ s.pc = .racing ∧ s.drain = .finished ∧
      s' = { s with pc := .returned, out := s.out ++ [.logStoppedCleanly] }) ∨
    (a = .recvTimer ∧ s.pc = .racing ∧ s.timer = some true ∧
      s' = { s with pc := .returned, out := s.out ++ [.logDrainTimeout, .stop] }) := by
  cases a with
  | cancel =>
    simp only [step, Option.some.injEq] at h
    exact Or.inl ⟨rfl, h.symm⟩
  | call =>
    simp only [step] at h
    split at h
    · next hpc =>
      simp only [Option.some.injEq] at h
      exact Or.inr (Or.inl ⟨rfl, hpc, h.symm⟩)
    · simp at h
  | serveBegin =>
    simp only [step] at h
    split at h
    · next hsv =>
      simp only [Option.some.injEq] at h
      exact Or.inr (Or.inr (Or.inl ⟨rfl, hsv, h.symm⟩))
    · simp at h
  | serveReturn err =>
    simp only [step] at h
    split at h
    · next hsv =>
      split at h
      · next e =>
        simp only [Option.some.injEq] at h
        exact Or.inr (Or.inr (Or.inr (Or.inl ⟨e, rfl, hsv, h.symm⟩)))
      · simp only [Option.some.injEq] at h
        exact Or.inr (Or.inr (Or.inr (Or.inr (Or.inl ⟨rfl, hsv, h.symm⟩))))
    · simp at h
  | recvCtx =>
    simp only [step] at h
    split at h
    · next hpc hc =>
      simp only [Option.some.injEq] at h
      exact Or.inr (Or.inr (Or.inr (Or.inr (Or.inr (Or.inl ⟨rfl, hpc, hc, h.symm⟩)))))
    · simp at h
  | drainBegin =>
    simp only [step] at h
    split at h
    · next hd =>
      simp only [Option.some.injEq] at h
      exact Or.inr (Or.inr (Or.inr (Or.inr (Or.inr (Or.inr (Or.inl ⟨rfl, hd, h.symm⟩))))))
    · simp at h
  | drainEnd =>
    simp only [step] at h
    split at h
    · next hd =>
      simp only [Option.some.injEq] at h
      exact Or.inr (Or.inr (Or.inr (Or.inr (Or.inr (Or.inr (Or.inr (Or.inl
        ⟨rfl, hd, h.symm⟩)))))))
    · simp at h
  | timerFire =>
    simp only [step] at h
    split at h
    · next ht =>
      simp only [Option.some.injEq] at h
      exact Or.inr (Or.inr (Or.inr (Or.inr (Or.inr (Or.inr (Or.inr (Or.inr (Or.inl
        ⟨rfl, ht, h.symm⟩))))))))
    · simp at h
  | recvDone =>
    simp only [step] at h
    split at h
    · next hpc hd =>
      simp only [Option.some.injEq] at h
      exact Or.inr (Or.inr (Or.inr (Or.inr (Or.inr (Or.inr (Or.inr (Or.inr (Or.inr (Or.inl
        ⟨rfl, hpc, hd, h.symm⟩)))))))))
    · simp at h
  | recvTimer =>
    simp only [step] at h
    split at h
    · next hpc ht =>
      simp only [Option.some.injEq] at h
      exact Or.inr (Or.inr (Or.inr (Or.inr (Or.inr (Or.inr (Or.inr (Or.inr (Or.inr (Or.inr
        ⟨rfl, hpc, ht, h.symm⟩)))))))))
    · simp at h

/-- The phases of `RunWithGracefulShutdown`: before the context is cancelled the
function is at its entry or blocked on `<-ctx.Done()`; the draining goroutine
and the drain timer exist exactly from the `select` on. -/
theorem shutdown_phase (lis : String) (d : time.Duration) (sched : List Action) (s : State)
    (hs : RunWithGracefulShutdown lis d sched = some s) :
    s.lis = lis ∧ s.drainTimeout = d ∧
    (s.ctxDone = false → s.pc = .entry ∨ s.pc = .awaitCtx) ∧
    (s.pc = .entry ↔ s.server = .idle) ∧
    ((s.pc = .entry ∨ s.pc = .awaitCtx) → s.drain = .idle ∧ s.timer = none) ∧
    ((s.pc = .racing ∨ s.pc = .returned) → s.drain ≠ .idle ∧ s.timer ≠ none) := by
  refine shutdown_exec_induction (fun _ s => s.lis = lis ∧ s.drainTimeout = d ∧
    (s.ctxDone = false → s.pc = .entry ∨ s.pc = .awaitCtx) ∧
    (s.pc = .entry ↔ s.server = .idle) ∧
    ((s.pc = .entry ∨ s.pc = .awaitCtx) → s.drain = .idle ∧ s.timer = none) ∧
    ((s.pc = .racing ∨ s.pc = .returned) → s.drain ≠ .idle ∧ s.timer ≠ none))
    (init lis d) (by simp [init]) ?_ sched s hs
  rintro - s a s' - ⟨h1, h2, h3, h4, h5, h6⟩ hstep
  rcases shutdown_step_inv s s' a hstep with ⟨-, rfl⟩ | ⟨-, hp, rfl⟩ | ⟨-, hv, rfl⟩ |
    ⟨e, -, hv, rfl⟩ | ⟨-, hv, rfl⟩ | ⟨-, hp, hc, rfl⟩ | ⟨-, hd, rfl⟩ | ⟨-, hd, rfl⟩ |
    ⟨-, ht, rfl⟩ | ⟨-, hp, hd, rfl⟩ | ⟨-, hp, ht, rfl⟩
  · exact ⟨h1, h2, by simp, h4, h5, h6⟩
  · exact ⟨h1, h2, by simp, by simp, by simpa [hp] using h5, by simp⟩
  · refine ⟨h1, h2, h3, ?_, h5, h6⟩
    simp only [reduceCtorEq, iff_false]
    intro hp
    rw [h4.mp hp] at hv
    exact absurd hv (by simp)
  · refine ⟨h1, h2, h3, ?_, h5, h6⟩
    simp only [reduceCtorEq, iff_false]
    intro hp
    rw [h4.mp hp] at hv
    exact absurd hv (by simp)
  · refine ⟨h1, h2, h3, ?_, h5, h6⟩
    simp only [reduceCtorEq, iff_false]
    intro hp
    rw [h4.mp hp] at hv
    exact absurd hv (by simp)
  · refine ⟨h1, h2, by simp [hc], ?_, by simp, by simp⟩
    simp only [reduceCtorEq, false_iff]
    intro hv
    rw [h4.mpr hv] at hp
    exact absurd hp (by simp)
  · refine ⟨h1, h2, h3, h4, ?_, by simpa using fun hp => (h6 hp).2⟩
    intro hp
    rw [(h5 hp).1] at hd
    exact absurd hd (by simp)
  · refine ⟨h1, h2, h3, h4, ?_, by simpa using fun hp => (h6 hp).2⟩
    intro hp
    rw [(h5 hp).1] at hd
    exact absurd hd (by simp)
  · refine ⟨h1, h2, h3, h4, ?_, by simpa using fun hp => (h6 hp).1⟩
    intro hp
    rw [(h5 hp).2] at ht
    exact absurd ht (by simp)
  · exact ⟨h1, h2, by simpa [hp] using h3, by simpa [hp] using h4, by simp,
      fun _ => h6 (Or.inl hp)⟩
  · exact ⟨h1, h2, by simpa [hp] using h3, by simpa [hp] using h4, by simp,
      fun _ => h6 (Or.inl hp)⟩

theorem gracefulStops_snoc (out : List Effect) (e : Effect) :
    gracefulStops (out ++ [e]) = gracefulStops out + if e = .gracefulStop then 1 else 0 := by
  simp only [gracefulStops, List.count_append, List.count_singleton, beq_iff_eq]

theorem stops_snoc (out : List Effect) (e : Effect) :
    stops (out ++ [e]) = stops out + if e = .stop then 1 else 0 := by
  simp only [stops, List.count_append, List.count_singleton, beq_iff_eq]

/-- `srv.GracefulStop()` has been invoked once when the draining goroutine has
started its body, and not before. -/
theorem shutdown_graceful_once (lis : String) (d : time.Duration) (sched : List Action)
    (s : State) (hs : RunWithGracefulShutdown lis d sched = some s) :
    gracefulStops s.out = if s.drain = .running ∨ s.drain = .finished then 1 else 0 := by
  have hphase : ∀ pre m, exec (init lis d) pre = some m →
      (m.pc = .entry ∨ m.pc = .awaitCtx) → m.drain = .idle :=
    fun pre m hm hp => ((shutdown_phase lis d pre m hm).2.2.2.2.1 hp).1
  refine shutdown_exec_induction (fun _ s => gracefulStops s.out =
    if s.drain = .running ∨ s.drain = .finished then 1 else 0)
    (init lis d) (by simp [init, gracefulStops]) ?_ sched s hs
  rintro pre s a s' hpre ih hstep
  rcases shutdown_step_inv s s' a hstep with ⟨-, rfl⟩ | ⟨-, hp, rfl⟩ | ⟨-, hv, rfl⟩ |
    ⟨e, -, hv, rfl⟩ | ⟨-, hv, rfl⟩ | ⟨-, hp, hc, rfl⟩ | ⟨-, hd, rfl⟩ | ⟨-, hd, rfl⟩ |
    ⟨-, ht, rfl⟩ | ⟨-, hp, hd, rfl⟩ | ⟨-, hp, ht, rfl⟩
  · exact ih
  · exact ih
  · simpa [gracefulStops_snoc] using ih
  · simpa [gracefulStops_snoc] using ih
  · exact ih
  · have hidle := hphase pre s hpre (Or.inr hp)
    simpa [gracefulStops_snoc, hidle] using ih
  · simpa [gracefulStops_snoc, hd] using ih
  · simpa [gracefulStops_snoc, hd] using ih
  · exact ih
  · simpa [gracefulStops_snoc] using ih
  · have h1 : gracefulStops (s.out ++ [Effect.logDrainTimeout, Effect.stop]) =
        gracefulStops s.out := by
      simp [gracefulStops, List.count_append, List.count_cons]
    simpa [h1] using ih

/-- The forced `srv.Stop()` is invoked exactly by the `select` taking the timer
case, and the function returns by exactly one of the two cases. -/
theorem shutdown_stop_iff_timer (lis : String) (d : time.Duration) (sched : List Action)
    (s : State) (hs : RunWithGracefulShutdown lis d sched = some s) :
    (s.pc ≠ .returned → stops s.out = 0 ∧ .recvTimer ∉ sched ∧ .recvDone ∉ sched) ∧
    (s.pc = .returned →
      (stops s.out = 1 ∧ .recvTimer ∈ sched ∧ .recvDone ∉ sched ∧ s.timer = some true) ∨
      (stops s.out = 0 ∧ .recvDone ∈ sched ∧ .recvTimer ∉ sched ∧ s.drain = .finished)) := by
  refine shutdown_exec_induction (fun pre s =>
    (s.pc ≠ .returned → stops s.out = 0 ∧ .recvTimer ∉ pre ∧ .recvDone ∉ pre) ∧
    (s.pc = .returned →
      (stops s.out = 1 ∧ .recvTimer ∈ pre ∧ .recvDone ∉ pre ∧ s.timer = some true) ∨
      (stops s.out = 0 ∧ .recvDone ∈ pre ∧ .recvTimer ∉ pre ∧ s.drain = .finished)))
    (init lis d) (by simp [init, stops]) ?_ sched s hs
  rintro pre s a s' - ⟨h1, h2⟩ hstep
  rcases shutdown_step_inv s s' a hstep with ⟨rfl, rfl⟩ | ⟨rfl, hp, rfl⟩ | ⟨rfl, hv, rfl⟩ |
    ⟨e, rfl, hv, rfl⟩ | ⟨rfl, hv, rfl⟩ | ⟨rfl, hp, hc, rfl⟩ | ⟨rfl, hd, rfl⟩ |
    ⟨rfl, hd, rfl⟩ | ⟨rfl, ht, rfl⟩ | ⟨rfl, hp, hd, rfl⟩ | ⟨rfl, hp, ht, rfl⟩
  · simpa using ⟨h1, h2⟩
  · have := h1 (by simp [hp])
    simpa using this
  · simpa [stops_snoc] using ⟨h1, h2⟩
  · simpa [stops_snoc] using ⟨h1, h2⟩
  · simpa using ⟨h1, h2⟩
  · have := h1 (by simp [hp])
    simpa [stops_snoc] using this
  · refine ⟨by simpa [stops_snoc] using h1, fun hp => ?_⟩
    rcases h2 hp with ⟨a1, a2, a3, a4⟩ | ⟨-, -, -, a4⟩
    · exact Or.inl ⟨by simpa [stops_snoc] using a1, by simp [a2], by simp [a3], a4⟩
    · rw [a4] at hd
      exact absurd hd (by simp)
  · refine ⟨by simpa [stops_snoc] using h1, fun hp => ?_⟩
    rcases h2 hp with ⟨a1, a2, a3, a4⟩ | ⟨-, -, -, a4⟩
    · exact Or.inl ⟨by simpa [stops_snoc] using a1, by simp [a2], by simp [a3], a4⟩
    · rw [a4] at hd
      exact absurd hd (by simp)
  · refine ⟨by simpa using h1, ?_⟩
    intro hp
    rcases h2 hp with ⟨a1, a2, a3, -⟩ | ⟨a1, a2, a3, a4⟩
    · exact Or.inl ⟨a1, by simp [a2], by simp [a3], rfl⟩
    · exact Or.inr ⟨a1, by simp [a2], by simp [a3], a4⟩
  · have := h1 (by simp [hp])
    refine ⟨by simp, fun _ => Or.inr ⟨?_, by simp, by simpa using this.2.1, hd⟩⟩
    simpa [stops_snoc] using this.1
  · have := h1 (by simp [hp])
    refine ⟨by simp, fun _ => Or.inl ⟨?_, by simp, by simpa using this.2.2, ht⟩⟩
    have h3 : stops (s.out ++ [Effect.logDrainTimeout, Effect.stop]) = stops s.out + 1 := by
      simp [stops, List.count_append, List.count_cons]
    rw [h3, this.1]

/-- The serving goroutine only ever serves on the listener that was supplied. -/
theorem shutdown_serves_lis (lis : String) (d : time.Duration) (sched : List Action)
    (s : State) (hs : RunWithGracefulShutdown lis d sched = some s) :
    s.lis = lis ∧ ∀ l, .serve l ∈ s.out → l = lis := by
  refine shutdown_exec_induction (fun _ s => s.lis = lis ∧ ∀ l, .serve l ∈ s.out → l = lis)
    (init lis d) (by simp [init]) ?_ sched s hs
  rintro - s a s' - ⟨h1, h2⟩ hstep
  rcases shutdown_step_inv s s' a hstep with ⟨-, rfl⟩ | ⟨-, -, rfl⟩ | ⟨-, -, rfl⟩ |
    ⟨e, -, -, rfl⟩ | ⟨-, -, rfl⟩ | ⟨-, -, -, rfl⟩ | ⟨-, -, rfl⟩ | ⟨-, -, rfl⟩ |
    ⟨-, -, rfl⟩ | ⟨-, -, -, rfl⟩ | ⟨-, -, -, rfl⟩
  · exact ⟨h1, h2⟩
  · exact ⟨h1, h2⟩
  · refine ⟨h1, fun l hl => ?_⟩
    simp only [List.mem_append, List.mem_singleton, Effect.serve.injEq] at hl
    rcases hl with hl | hl
    · exact h2 l hl
    · rw [hl, h1]
  · exact ⟨h1, fun l hl => h2 l (by simpa using hl)⟩
  · exact ⟨h1, h2⟩
  · exact ⟨h1, fun l hl => h2 l (by simpa using hl)⟩
  · exact ⟨h1, fun l hl => h2 l (by simpa using hl)⟩
  · exact ⟨h1, fun l hl => h2 l (by simpa using hl)⟩
  · exact ⟨h1, h2⟩
  · exact ⟨h1, fun l hl => h2 l (by simpa using hl)⟩
  · exact ⟨h1, fun l hl => h2 l (by simpa using hl)⟩

/-- The serving goroutine has called `srv.Serve(lis)` once when it has started its
body, and not before. -/
theorem shutdown_serve_once (lis : String) (d : time.Duration) (sched : List Action)
    (s : State) (hs : RunWithGracefulShutdown lis d sched = some s) :
    s.lis = lis ∧
    s.out.count (.serve lis) = if s.server = .running ∨ s.server = .finished then 1 else 0 := by
  refine shutdown_exec_induction (fun _ s => s.lis = lis ∧
    s.out.count (.serve lis) = if s.server = .running ∨ s.server = .finished then 1 else 0)
    (init lis d) (by simp [init]) ?_ sched s hs
  rintro pre s a s' hpre ⟨hl, ih⟩ hstep
  have hphase := (shutdown_phase lis d pre s hpre).2.2.2.1
  rcases shutdown_step_inv s s' a hstep with ⟨-, rfl⟩ | ⟨-, hp, rfl⟩ | ⟨-, hv, rfl⟩ |
    ⟨e, -, hv, rfl⟩ | ⟨-, hv, rfl⟩ | ⟨-, hp, hc, rfl⟩ | ⟨-, hd, rfl⟩ | ⟨-, hd, rfl⟩ |
    ⟨-, ht, rfl⟩ | ⟨-, hp, hd, rfl⟩ | ⟨-, hp, ht, rfl⟩
  · exact ⟨hl, ih⟩
  · have hidle := hphase.mp hp
    refine ⟨hl, ?_⟩
    simpa [hidle] using ih
  · refine ⟨hl, ?_⟩
    simp only [List.count_append, ih, hv, hl]
    simp
  · refine ⟨hl, ?_⟩
    simp only [List.count_append, ih, hv]
    simp
  · refine ⟨hl, ?_⟩
    simpa [hv] using ih
  · refine ⟨hl, ?_⟩
    simp only [List.count_append, ih]
    simp
  · refine ⟨hl, ?_⟩
    simp only [List.count_append, ih]
    simp
  · refine ⟨hl, ?_⟩
    simp only [List.count_append, ih]
    simp
  · exact ⟨hl, ih⟩
  · refine ⟨hl, ?_⟩
    simp only [List.count_append, ih]
    simp
  · refine ⟨hl, ?_⟩
    simp only [List.count_append, ih]
    simp [List.count_cons]

/-- C10. Over every schedule, whatever the serving goroutine does: entering the
function spawns the serving goroutine and goes on to block on `<-ctx.Done()`
without waiting for it; the spawned goroutine can always start, and starting
it calls `srv.Serve(lis)` on the supplied listener, which has been called
exactly once as soon as the goroutine runs and on no other listener; when
`srv.Serve` returns, with an error or without, the function stays where it is
and no stop is invoked; while the context is not cancelled the
function is at its entry or blocked on `<-ctx.Done()`, has not returned, has
spawned no draining goroutine, neither `srv.GracefulStop()` nor `srv.Stop()`
has been invoked, and none of the steps past `<-ctx.Done()` is enabled; once
the context is cancelled the blocked function can proceed. -/
theorem RunWithGracefulShutdown_blocks_until_cancel (lis : String) (d : time.Duration)
    (sched : List Action) (s : State)
    (hs : RunWithGracefulShutdown lis d sched = some s) :
    (s.pc ≠ .entry → s.server ≠ .idle) ∧
    (∀ l, .serve l ∈ s.out → l = lis) ∧
    (s.ctxDone = false →
      (s.pc = .entry ∨ s.pc = .awaitCtx) ∧ s.pc ≠ .returned ∧ s.drain = .idle ∧
      gracefulStops s.out = 0 ∧ stops s.out = 0 ∧
      step s .recvCtx = none ∧ step s .recvDone = none ∧ step s .recvTimer = none ∧
      step s .drainBegin = none) ∧
    (s.pc = .awaitCtx → s.ctxDone = true → (step s .recvCtx).isSome = true) ∧
    (s.pc = .entry → ∃ s', step s .call = some s' ∧ s'.pc = .awaitCtx ∧
      s'.server = .spawned ∧ s'.out = s.out) ∧
    (s.server = .spawned → ∃ s', step s .serveBegin = some s' ∧ s'.server = .running ∧
      s'.pc = s.pc ∧ s'.out = s.out ++ [.serve lis]) ∧
    (s.out.count (.serve lis) =
      if s.server = .running ∨ s.server = .finished then 1 else 0) ∧
    (s.server = .running → ∀ err, ∃ s', step s (.serveReturn err) = some s' ∧
      s'.server = .finished ∧ s'.pc = s.pc ∧ s'.ctxDone = s.ctxDone ∧
      gracefulStops s'.out = gracefulStops s.out ∧ stops s'.out = stops s.out) := by
  obtain ⟨-, -, hctx, hsv, hpre, -⟩ := shutdown_phase lis d sched s hs
  have hg := shutdown_graceful_once lis d sched s hs
  obtain ⟨hnr, -⟩ := shutdown_stop_iff_timer lis d sched s hs
  obtain ⟨hlis, hserve⟩ := shutdown_serve_once lis d sched s hs
  refine ⟨fun hp hv => hp (hsv.mpr hv), (shutdown_serves_lis lis d sched s hs).2, ?_, ?_,
    ?_, ?_, hserve, ?_⟩
  · intro hc
    have hp := hctx hc
    have hidle := (hpre hp).1
    have hnret : s.pc ≠ .returned := by
      rcases hp with hp | hp <;> simp [hp]
    refine ⟨hp, hnret, hidle, by simp [hg, hidle], (hnr hnret).1, ?_, ?_, ?_, ?_⟩
    · rcases hp with hp | hp <;> simp [step, hp, hc]
    · rcases hp with hp | hp <;> simp [step, hp]
    · rcases hp with hp | hp <;> simp [step, hp]
    · simp [step, hidle]
  · intro hp hc
    simp [step, hp, hc]
  · intro hp
    exact ⟨{ s with pc := .awaitCtx, server := .spawned }, by simp only [step, hp], rfl, rfl,
      rfl⟩
  · intro hv
    exact ⟨{ s with server := .running, out := s.out ++ [.serve s.lis] },
      by simp only [step, hv], rfl, rfl, by rw [hlis]⟩
  · intro hv err
    cases err with
    | none =>
      exact ⟨{ s with server := .finished }, by simp only [step, hv], rfl, rfl, rfl, rfl, rfl⟩
    | some e =>
      exact ⟨{ s with server := .finished, out := s.out ++ [.logServeStopped e] },
        by simp only [step, hv], rfl, rfl, rfl, by simp [gracefulStops_snoc],
        by simp [stops_snoc]⟩

/-- Witness for `RunWithGracefulShutdown_blocks_until_cancel`: `srv.Serve` fails at
once and the context is not cancelled; the function stays blocked. -/
theorem RunWithGracefulShutdown_blocks_until_cancel_witness :
    ∃ s, RunWithGracefulShutdown "lis" 5000000000 serveFailsEarly = some s ∧
      s.ctxDone = false ∧ s.pc = .awaitCtx ∧ gracefulStops s.out = 0 ∧ stops s.out = 0 ∧
      step s .recvCtx = none :=
  ⟨_, rfl, rfl, rfl,
    ((RunWithGracefulShutdown_blocks_until_cancel "lis" 5000000000 serveFailsEarly _
      rfl).2.2.1 rfl).2.2.2.1,
    ((RunWithGracefulShutdown_blocks_until_cancel "lis" 5000000000 serveFailsEarly _
      rfl).2.2.1 rfl).2.2.2.2.1,
    ((RunWithGracefulShutdown_blocks_until_cancel "lis" 5000000000 serveFailsEarly _
      rfl).2.2.1 rfl).2.2.2.2.2.1⟩

end serverutil

/-! ## Theorems: environment parsing -/

namespace strconv

/-- A character that is not a decimal digit makes the digit loop fail. -/
theorem parseUintLoop_nondigit (cs : List Char) (n : Nat)
    (h : (cs.all fun d => (digit d).isSome) = false) : (parseUintLoop n cs).2 ≠ none := by
  induction cs generalizing n with
  | nil => simp at h
  | cons c cs ih =>
    simp only [parseUintLoop]
    cases hd : digit c with
    | none => simp
    | some d =>
      simp only
      split
      · simp
      · apply ih
        simpa [hd] using h

/-- `ParseUint` fails on the empty string and on every string with a character
that is not a decimal digit. -/
theorem ParseUint_invalid (ds : List Char)
    (h : (!ds.isEmpty && ds.all fun d => (digit d).isSome) = false) :
    (ParseUint ds).2 ≠ none := by
  cases ds with
  | nil => simp [ParseUint]
  | cons c cs =>
    simp only [ParseUint]
    apply parseUintLoop_nondigit
    simpa using h

/-- `ParseInt` never succeeds with a failed `ParseUint`. -/
theorem ParseInt_error (c : Char) (cs : List Char)
    (h : (ParseUint (if c = '+' ∨ c = '-' then cs else c :: cs)).2 ≠ none) :
    (ParseInt (c :: cs)).2 ≠ none := by
  simp only [ParseInt]
  rcases hu : ParseUint (if c = '+' ∨ c = '-' then cs else c :: cs) with ⟨un, _ | e⟩
  · rw [hu] at h
    exact absurd rfl h
  · cases e with
    | ErrSyntax => simp
    | ErrRange =>
      simp only
      split
      · simp
      · split
        · simp
        · next h1 h2 =>
          exfalso
          -- a range error always comes with the value `1<<64 - 1`
          have hval : ∀ (n : Nat) (l : List Char) (m : Nat),
              parseUintLoop n l = (m, some NumError.ErrRange) → m = 2 ^ 64 - 1 := by
            intro n l
            induction l generalizing n with
            | nil => intro m hm; simp [parseUintLoop] at hm
            | cons a l ih =>
              intro m hm
              simp only [parseUintLoop] at hm
              cases hd : digit a with
              | none => simp [hd] at hm
              | some d =>
                simp only [hd] at hm
                split at hm
                · simp only [Prod.mk.injEq, and_true] at hm
                  exact hm.symm
                · exact ih _ m hm
          have hmax : un = 2 ^ 64 - 1 := by
            cases hds : (if c = '+' ∨ c = '-' then cs else c :: cs) with
            | nil => simp [hds, ParseUint] at hu
            | cons a l =>
              rw [hds] at hu
              exact hval 0 (a :: l) un hu
          by_cases hneg : c = '-'
          · simp [hneg, hmax] at h2
          · simp [hneg, hmax] at h1

/-- On a string that is not an optional sign followed by decimal digits, `Atoi`
returns an error. -/
theorem Atoi_invalid (v : String) (h : isDecimalInteger v = false) : (Atoi v).2 ≠ none := by
  simp only [Atoi]
  simp only [isDecimalInteger] at h
  cases hv : v.toList with
  | nil => simp [ParseInt]
  | cons c cs =>
    rw [hv] at h
    exact ParseInt_error c cs (ParseUint_invalid _ h)

/-- What `ParseInt` does on a string that starts with a minus sign. -/
theorem ParseInt_minus (ds : List Char) :
    ParseInt ('-' :: ds) =
      if (ParseUint ds).2 = some .ErrSyntax then (0, some .ErrSyntax)
      else if 2 ^ 63 < (ParseUint ds).1 then (-(2 ^ 63), some .ErrRange)
      else (-((ParseUint ds).1 : Int), none) := by
  unfold ParseInt
  simp only [or_true, if_true]
  cases hu : ParseUint ds with
  | mk un e =>
    cases e with
    | none => simp
    | some e => cases e <;> simp

/-- On a string that starts with a minus sign, `Atoi` returns an error or a value
that is not positive. -/
theorem Atoi_minus (v : String) (ds : List Char) (h : v.toList = '-' :: ds) :
    (Atoi v).2 ≠ none ∨ (Atoi v).1 ≤ 0 := by
  rw [Atoi, h, ParseInt_minus]
  split
  · simp
  · split
    · simp
    · right
      simp

end strconv

namespace serverutil

/-- The value `ParseDurationSeconds` returns, in terms of `os.Getenv` and
`strconv.Atoi`. -/
theorem ParseDurationSeconds_value (env : String → Option String) (key : String)
    (dflt : time.Duration) :
    (ParseDurationSeconds env key dflt).1 =
      if os.Getenv env key = "" then dflt
      else if (strconv.Atoi (os.Getenv env key)).2 ≠ none ∨
          (strconv.Atoi (os.Getenv env key)).1 ≤ 0 then dflt
      else time.wrapInt64 ((strconv.Atoi (os.Getenv env key)).1 * time.Second) := by
  simp only [ParseDurationSeconds]
  split
  · rfl
  · split <;> rfl

/-- C11. For every key, environment and default `def`, `ParseDurationSeconds`
returns exactly `def` when the variable is unset, when its value is the empty
string, when it is "0", when it starts with a minus sign (every negative
integer does), and when it is not an optional sign followed by one or more
decimal digits, which is the case of "notanint", "1.5" and "10s". -/
theorem ParseDurationSeconds_falls_back_to_default (env : String → Option String)
    (key : String) (dflt : time.Duration) :
    (env key = none → (ParseDurationSeconds env key dflt).1 = dflt) ∧
    (env key = some "" → (ParseDurationSeconds env key dflt).1 = dflt) ∧
    (env key = some "0" → (ParseDurationSeconds env key dflt).1 = dflt) ∧
    (∀ v ds, env key = some v → v.toList = '-' :: ds →
      (ParseDurationSeconds env key dflt).1 = dflt) ∧
    (∀ v, env key = some v → strconv.isDecimalInteger v = false →
      (ParseDurationSeconds env key dflt).1 = dflt) ∧
    strconv.isDecimalInteger "notanint" = false ∧
    strconv.isDecimalInteger "1.5" = false ∧
    strconv.isDecimalInteger "10s" = false := by
  refine ⟨?_, ?_, ?_, ?_, ?_, by decide, by decide, by decide⟩
  · intro h
    simp [ParseDurationSeconds_value, os.Getenv, h]
  · intro h
    simp [ParseDurationSeconds_value, os.Getenv, h]
  · intro h
    have h0 : strconv.Atoi "0" = (0, none) := by decide
    rw [ParseDurationSeconds_value]
    simp [os.Getenv, h, h0]
  · intro v ds h hv
    have hg : os.Getenv env key = v := by simp [os.Getenv, h]
    rw [ParseDurationSeconds_value, hg]
    split
    · rfl
    · rw [if_pos (strconv.Atoi_minus v ds hv)]
  · intro v h hv
    have hg : os.Getenv env key = v := by simp [os.Getenv, h]
    rw [ParseDurationSeconds_value, hg]
    split
    · rfl
    · rw [if_pos (Or.inl (strconv.Atoi_invalid v hv))]

/-- Within the range of `int64` nanoseconds, a positive number of seconds is
returned as that many seconds. -/
theorem ParseDurationSeconds_in_range (env : String → Option String) (key v : String)
    (dflt : time.Duration) (n : Int) (hv : env key = some v)
    (hn : strconv.Atoi v = (n, none)) (hpos : 0 < n) (hle : n ≤ 9223372036) :
    (ParseDurationSeconds env key dflt).1 = n * 1000000000 ∧
    0 < (ParseDurationSeconds env key dflt).1 := by
  have hg : os.Getenv env key = v := by simp [os.Getenv, hv]
  have hne : v ≠ "" := by
    intro he
    rw [he] at hn
    have : strconv.Atoi "" = (0, some .ErrSyntax) := by decide
    rw [this] at hn
    simp at hn
  have hw : time.wrapInt64 (n * time.Second) = n * 1000000000 := by
    simp only [time.wrapInt64, time.Second]
    omega
  have hcond : ¬ ((n, (none : Option strconv.NumError)).2 ≠ none ∨
      (n, (none : Option strconv.NumError)).1 ≤ 0) := by
    simp only [ne_eq, not_true_eq_false, false_or, not_le]
    exact hpos
  have hval : (ParseDurationSeconds env key dflt).1 = n * 1000000000 := by
    rw [ParseDurationSeconds_value, hg, if_neg hne, hn, if_neg hcond, hw]
  rw [hval]
  have hprod : (0 : Int) < n * 1000000000 := by omega
  exact ⟨rfl, hprod⟩

/-- C12 (the code departs from the claim). The value "30" is read as 30 seconds;
but the value "9223372037", a positive integer that `strconv.Atoi` accepts, is
returned as a negative duration, and "36028797018963968" as the zero
duration: the product with `time.Second` wraps around in `int64`. -/
theorem ParseDurationSeconds_wraps_on_large_values :
    (ParseDurationSeconds (envWith "DRAIN" "30") "DRAIN" 5000000000).1 = 30 * time.Second ∧
    strconv.Atoi "9223372037" = (9223372037, none) ∧
    (ParseDurationSeconds (envWith "DRAIN" "9223372037") "DRAIN" 5000000000).1 =
      -9223372036709551616 ∧
    strconv.Atoi "36028797018963968" = (36028797018963968, none) ∧
    (ParseDurationSeconds (envWith "DRAIN" "36028797018963968") "DRAIN" 5000000000).1 = 0 := by
  decide

end serverutil

/-! ## Theorems: package arangoutil -/

namespace arangoutil

end arangoutil

/-! ## Theorems: the outcome lines of the shutdown -/

namespace serverutil

theorem outcomeLines_snoc (out : List Effect) (e : Effect) :
    outcomeLines (out ++ [e]) = outcomeLines out ++ if e.isOutcomeLine then [e] else [] := by
  cases he : e.isOutcomeLine <;> simp [outcomeLines, List.filter_append, List.filter, he]

/-- The outcome lines along every schedule: none before the function returns, one
afterwards, chosen by the case the `select` took; the drain-timeout line and
`srv.Stop()` come together, the line first. -/
theorem shutdown_outcome_lines (lis : String) (d : time.Duration) (sched : List Action)
    (s : State) (hs : RunWithGracefulShutdown lis d sched = some s) :
    (.logDrainTimeout ∈ s.out ↔ .stop ∈ s.out) ∧
    (.stop ∈ s.out → ∃ o rest, s.out = o ++ [.logDrainTimeout, .stop] ++ rest) ∧
    (s.pc ≠ .returned → outcomeLines s.out = []) ∧
    (s.pc = .returned →
      (.recvDone ∈ sched ∧ outcomeLines s.out = [.logStoppedCleanly]) ∨
      (.recvTimer ∈ sched ∧ outcomeLines s.out = [.logDrainTimeout])) := by
  refine shutdown_exec_induction (fun pre s =>
    (.logDrainTimeout ∈ s.out ↔ .stop ∈ s.out) ∧
    (.stop ∈ s.out → ∃ o rest, s.out = o ++ [.logDrainTimeout, .stop] ++ rest) ∧
    (s.pc ≠ .returned → outcomeLines s.out = []) ∧
    (s.pc = .returned →
      (.recvDone ∈ pre ∧ outcomeLines s.out = [.logStoppedCleanly]) ∨
      (.recvTimer ∈ pre ∧ outcomeLines s.out = [.logDrainTimeout])))
    (init lis d) (by simp [init, outcomeLines]) ?_ sched s hs
  rintro pre s a s' - ⟨h1, h2, h3, h4⟩ hstep
  -- appending one effect that is neither an outcome line nor `srv.Stop()`
  have happend : ∀ e : Effect, e ≠ .logDrainTimeout → e ≠ .stop → e.isOutcomeLine = false →
      ∀ pc : Pc, pc = s.pc →
      ((.logDrainTimeout ∈ s.out ++ [e] ↔ .stop ∈ s.out ++ [e]) ∧
       (.stop ∈ s.out ++ [e] → ∃ o rest, s.out ++ [e] = o ++ [.logDrainTimeout, .stop] ++ rest) ∧
       (pc ≠ .returned → outcomeLines (s.out ++ [e]) = []) ∧
       (pc = .returned →
         (.recvDone ∈ pre ++ [a] ∧ outcomeLines (s.out ++ [e]) = [.logStoppedCleanly]) ∨
         (.recvTimer ∈ pre ++ [a] ∧ outcomeLines (s.out ++ [e]) = [.logDrainTimeout]))) := by
    intro e he1 he2 he3 pc hpc
    subst hpc
    refine ⟨?_, ?_, ?_, ?_⟩
    · simp only [List.mem_append, List.mem_singleton, he1.symm, he2.symm, or_false]
      exact h1
    · intro hm
      simp only [List.mem_append, List.mem_singleton, he2.symm, or_false] at hm
      obtain ⟨o, rest, ho⟩ := h2 hm
      exact ⟨o, rest ++ [e], by rw [ho]; simp⟩
    · intro hp
      simp [outcomeLines_snoc, he3, h3 hp]
    · intro hp
      rcases h4 hp with ⟨a1, a2⟩ | ⟨a1, a2⟩
      · exact Or.inl ⟨List.mem_append_left _ a1, by simp [outcomeLines_snoc, he3, a2]⟩
      · exact Or.inr ⟨List.mem_append_left _ a1, by simp [outcomeLines_snoc, he3, a2]⟩
  -- a step that leaves the effects unchanged
  have hsame : ∀ pc : Pc, pc = s.pc →
      ((.logDrainTimeout ∈ s.out ↔ .stop ∈ s.out) ∧
       (.stop ∈ s.out → ∃ o rest, s.out = o ++ [.logDrainTimeout, .stop] ++ rest) ∧
       (pc ≠ .returned → outcomeLines s.out = []) ∧
       (pc = .returned →
         (.recvDone ∈ pre ++ [a] ∧ outcomeLines s.out = [.logStoppedCleanly]) ∨
         (.recvTimer ∈ pre ++ [a] ∧ outcomeLines s.out = [.logDrainTimeout]))) := by
    intro pc hpc
    subst hpc
    refine ⟨h1, h2, h3, fun hp => ?_⟩
    rcases h4 hp with ⟨a1, a2⟩ | ⟨a1, a2⟩
    · exact Or.inl ⟨List.mem_append_left _ a1, a2⟩
    · exact Or.inr ⟨List.mem_append_left _ a1, a2⟩
  rcases shutdown_step_inv s s' a hstep with ⟨-, rfl⟩ | ⟨-, hp, rfl⟩ | ⟨-, hv, rfl⟩ |
    ⟨e, -, hv, rfl⟩ | ⟨-, hv, rfl⟩ | ⟨-, hp, hc, rfl⟩ | ⟨-, hd, rfl⟩ | ⟨-, hd, rfl⟩ |
    ⟨-, ht, rfl⟩ | ⟨rfl, hp, hd, rfl⟩ | ⟨rfl, hp, ht, rfl⟩
  · exact hsame _ rfl
  · refine ⟨h1, h2, fun _ => h3 (by simp [hp]), fun hp' => by simp at hp'⟩
  · exact happend (.serve s.lis) (by simp) (by simp) rfl _ rfl
  · exact happend (.logServeStopped e) (by simp) (by simp) rfl _ rfl
  · exact hsame _ rfl
  · have hnr : s.pc ≠ .returned := by simp [hp]
    have := happend (.after s.drainTimeout) (by simp) (by simp) rfl s.pc rfl
    exact ⟨this.1, this.2.1, fun _ => this.2.2.1 hnr, fun hp' => by simp at hp'⟩
  · exact happend .gracefulStop (by simp) (by simp) rfl _ rfl
  · exact happend .closeDone (by simp) (by simp) rfl _ rfl
  · exact hsame _ rfl
  · have hnr : s.pc ≠ .returned := by simp [hp]
    refine ⟨?_, ?_, fun hp' => absurd rfl hp', fun _ => Or.inl ⟨by simp, ?_⟩⟩
    · simp only [List.mem_append, List.mem_singleton, reduceCtorEq, or_false]
      exact h1
    · intro hm
      simp only [List.mem_append, List.mem_singleton, reduceCtorEq, or_false] at hm
      obtain ⟨o, rest, ho⟩ := h2 hm
      exact ⟨o, rest ++ [.logStoppedCleanly], by rw [ho]; simp⟩
    · simp [outcomeLines_snoc, Effect.isOutcomeLine, h3 hnr]
  · have hnr : s.pc ≠ .returned := by simp [hp]
    refine ⟨by simp, fun _ => ⟨s.out, [], by simp⟩, fun hp' => absurd rfl hp',
      fun _ => Or.inr ⟨by simp, ?_⟩⟩
    have : s.out ++ [Effect.logDrainTimeout, Effect.stop] =
        (s.out ++ [Effect.logDrainTimeout]) ++ [Effect.stop] := by simp
    rw [this, outcomeLines_snoc, outcomeLines_snoc]
    simp [Effect.isOutcomeLine, h3 hnr]

/-- C14 (as stated) fails.  On `timerBeforeDrainStarts` the one outcome line
logged is "serverutil: drain timeout exceeded — forcing stop", which does not
contain the text "drain timeout — forcing stop" of the specification; and on
`gracefulThenTimer`, where the graceful stop completes first, the one outcome
line logged is the drain-timeout line, not the "stopped cleanly" line. -/
theorem RunWithGracefulShutdown_logs_another_text :
    ((RunWithGracefulShutdown "lis" 5000000000 timerBeforeDrainStarts).map
      fun s => (outcomeLines s.out).map Effect.logText) =
      some [some "serverutil: drain timeout exceeded — forcing stop"] ∧
    containsText "serverutil: drain timeout exceeded — forcing stop" specDrainTimeout =
      false ∧
    gracefulFirst gracefulThenTimer = true ∧
    ((RunWithGracefulShutdown "lis" 0 gracefulThenTimer).map fun s => outcomeLines s.out) =
      some [.logDrainTimeout] := by
  decide

/-- C14 (amended). Over every schedule `RunWithGracefulShutdown` logs no outcome
line before it returns and exactly one once it has returned: the line
"serverutil: gRPC server stopped cleanly", which contains the text "stopped
cleanly", when its `select` took the `done` case, and the line "serverutil:
drain timeout exceeded — forcing stop" when its `select` took the timer case;
the drain-timeout line is in the log exactly when the forced `srv.Stop()` has
been invoked, and it comes immediately before that invocation. -/
theorem RunWithGracefulShutdown_logs_one_outcome_line (lis : String) (d : time.Duration)
    (sched : List Action) (s : State)
    (hs : RunWithGracefulShutdown lis d sched = some s) :
    (s.pc ≠ .returned → outcomeLines s.out = []) ∧
    (s.pc = .returned →
      (.recvDone ∈ sched ∧ .recvTimer ∉ sched ∧ outcomeLines s.out = [.logStoppedCleanly]) ∨
      (.recvTimer ∈ sched ∧ .recvDone ∉ sched ∧ outcomeLines s.out = [.logDrainTimeout])) ∧
    (.logDrainTimeout ∈ s.out ↔ .stop ∈ s.out) ∧
    (.stop ∈ s.out → ∃ o rest, s.out = o ++ [.logDrainTimeout, .stop] ++ rest) ∧
    Effect.logText .logStoppedCleanly = some "serverutil: gRPC server stopped cleanly" ∧
    containsText "serverutil: gRPC server stopped cleanly" specStoppedCleanly = true ∧
    Effect.logText .logDrainTimeout =
      some "serverutil: drain timeout exceeded — forcing stop" := by
  obtain ⟨h1, h2, h3, h4⟩ := shutdown_outcome_lines lis d sched s hs
  obtain ⟨-, hr⟩ := shutdown_stop_iff_timer lis d sched s hs
  refine ⟨h3, fun hp => ?_, h1, h2, rfl, by decide, rfl⟩
  rcases h4 hp with ⟨a1, a2⟩ | ⟨a1, a2⟩
  · rcases hr hp with ⟨-, -, b3, -⟩ | ⟨-, -, b3, -⟩
    · exact absurd a1 b3
    · exact Or.inl ⟨a1, b3, a2⟩
  · rcases hr hp with ⟨-, -, b3, -⟩ | ⟨-, -, b3, -⟩
    · exact Or.inr ⟨a1, b3, a2⟩
    · exact absurd a1 b3

/-- Witness for `RunWithGracefulShutdown_logs_one_outcome_line`: a graceful stop
that completes within a five-second drain timeout. -/
theorem RunWithGracefulShutdown_logs_one_outcome_line_witness :
    ∃ s, RunWithGracefulShutdown "lis" 5000000000
        [.call, .serveBegin, .cancel, .recvCtx, .drainBegin, .drainEnd, .recvDone] = some s ∧
      (.logDrainTimeout ∈ s.out ↔ .stop ∈ s.out) :=
  ⟨_, rfl,
    (RunWithGracefulShutdown_logs_one_outcome_line "lis" 5000000000
      [.call, .serveBegin, .cancel, .recvCtx, .drainBegin, .drainEnd, .recvDone] _ rfl).2.2.1⟩

end serverutil
